import Mathlib

/-!
InfraSeal drift reconciler (`src/Reconciler.js`).

A shallow embedding of `compareStates` and `InfraSealReconciler.analyzeDrift`,
followed by the properties established about them.

Modelling conventions.

* A state tree is a `JSValue`: the values `JSON.parse` can produce.  A mapping is
  the list of its own enumerable properties in `Object.keys` order.
* `state[key]` is the read `getProp`, which looks at the own properties first and
  then follows the prototype chain, so it can give `undefined`, a value of the
  state, a built-in function (`constructor`, `toString`, ...) or, through
  `__proto__`, a built-in prototype object.  The built-in names are those of
  ECMAScript 2023 with Annex B.
* `JSON.stringify` is modelled by the text it writes.
* Severities are rationals: every weight is a dyadic rational with at most one
  binary digit after the point and a report holds fewer than `2 ^ 32` findings, so
  the double-precision sums the program computes are exact.
* `report.push` is explicit state passing.  `compareStates` and `analyzeDrift` are
  pure functions of the two states; `compareStatesM` and `analyzeDriftM` are the same
  code as programs over the objects and the console a call can reach, and are
  proved to compute the same values.
-/

namespace InfraSeal

/-! ## Values -/

/-- Numbers of a state tree.  Finite numbers are modelled by the integers (written
by `JSON.stringify` as their decimal numeral, which is what JS does below `10 ^ 21`);
the remaining constructors are the values `JSON.stringify` treats specially. -/
inductive JSNumber where
  | int (z : Int)
  | negZero
  | nan
  | posInf
  | negInf
  deriving DecidableEq, Repr

/-- State trees: null, booleans, numbers, strings, sequences and mappings. -/
inductive JSValue where
  | null
  | bool (b : Bool)
  | num (n : JSNumber)
  | str (s : String)
  | arr (xs : List JSValue)
  | obj (props : List (String × JSValue))
  deriving Repr

/-- Built-in prototype objects at the end of the prototype chain of a state. -/
inductive Prototype where
  | object
  | array
  | string
  | number
  | boolean
  deriving DecidableEq, Repr

/-- What a read `state[key]` evaluates to: `undefined`, a value of the state tree,
a function a built-in prototype holds under that name, or a built-in prototype
object. -/
inductive PropValue where
  | undefined
  | value (v : JSValue)
  | builtinFunction (owner : Prototype) (name : String)
  | prototype (p : Prototype)
  deriving Repr

/-- Errors a call can throw. -/
inductive JSError where
  | typeError
  deriving DecidableEq, Repr

/-! ## `JSON.stringify` -/

namespace JSON

/-- Lower-case hexadecimal digit of `n < 16`. -/
def hexDigit (n : Nat) : Char :=
  if n < 10 then Char.ofNat (48 + n) else Char.ofNat (87 + n)

/-- One code point of a string as `JSON.stringify` writes it inside quotes
(`QuoteJSONString`). -/
def escapeChar (c : Char) : List Char :=
  if c.toNat = 34 then [Char.ofNat 92, Char.ofNat 34]
  else if c.toNat = 92 then [Char.ofNat 92, Char.ofNat 92]
  else if c.toNat = 8 then [Char.ofNat 92, 'b']
  else if c.toNat = 12 then [Char.ofNat 92, 'f']
  else if c.toNat = 10 then [Char.ofNat 92, 'n']
  else if c.toNat = 13 then [Char.ofNat 92, 'r']
  else if c.toNat = 9 then [Char.ofNat 92, 't']
  else if c.toNat < 32 then
    [Char.ofNat 92, 'u', '0', '0', hexDigit (c.toNat / 16), hexDigit (c.toNat % 16)]
  else [c]

/-- A string in double quotes with its characters escaped. -/
def quote (s : String) : List Char :=
  Char.ofNat 34 :: (s.data.flatMap escapeChar ++ [Char.ofNat 34])

/-- Text of a number: the decimal numeral of a finite number, `0` for negative
zero, and `null` for NaN and the infinities. -/
def numberText : JSNumber → List Char
  | .int z => if z < 0 then '-' :: Nat.toDigits 10 z.natAbs else Nat.toDigits 10 z.natAbs
  | .negZero => ['0']
  | .nan => ['n', 'u', 'l', 'l']
  | .posInf => ['n', 'u', 'l', 'l']
  | .negInf => ['n', 'u', 'l', 'l']

mutual
/-- Text `JSON.stringify` writes for a value (no indentation). -/
def serialize : JSValue → List Char
  | .null => ['n', 'u', 'l', 'l']
  | .bool true => ['t', 'r', 'u', 'e']
  | .bool false => ['f', 'a', 'l', 's', 'e']
  | .num n => numberText n
  | .str s => quote s
  | .arr xs => '[' :: (serializeElems xs ++ [']'])
  | .obj props => Char.ofNat 123 :: (serializeProps props ++ [Char.ofNat 125])
/-- Elements of a sequence, separated by commas. -/
def serializeElems : List JSValue → List Char
  | [] => []
  | [x] => serialize x
  | x :: y :: rest => serialize x ++ ',' :: serializeElems (y :: rest)
/-- Properties of a mapping, `"key":value`, separated by commas. -/
def serializeProps : List (String × JSValue) → List Char
  | [] => []
  | [(k, v)] => quote k ++ ':' :: serialize v
  | (k, v) :: q :: rest => quote k ++ ':' :: (serialize v ++ ',' :: serializeProps (q :: rest))
end

/-- Text `JSON.stringify` writes for a built-in prototype object: `Object.prototype`
has no enumerable property, `Array.prototype` is an empty array, and the other
three wrap the empty string, the number 0 and `false`. -/
def prototypeText : Prototype → List Char
  | .object => [Char.ofNat 123, Char.ofNat 125]
  | .array => ['[', ']']
  | .string => quote ""
  | .number => ['0']
  | .boolean => ['f', 'a', 'l', 's', 'e']

/-- The call `JSON.stringify(v)`: `undefined` for `undefined` and for a function,
otherwise the text. -/
def stringify : PropValue → Option String
  | .undefined => none
  | .value x => some (String.mk (serialize x))
  | .builtinFunction _ _ => none
  | .prototype p => some (String.mk (prototypeText p))

end JSON

/-! ## Property access -/

/-- Decimal index keys `"0"`, ..., `"n-1"` of an array-like value. -/
def indexKeys (n : Nat) : List String :=
  (List.range n).map (fun i => String.mk (Nat.toDigits 10 i))

/-- The call `Object.keys(state)`: own enumerable property names.  It throws a
TypeError on `null`; a number or boolean has none; a sequence or string has its
indices. -/
def Object.keys : JSValue → Except JSError (List String)
  | .null => .error .typeError
  | .bool _ => .ok []
  | .num _ => .ok []
  | .str s => .ok (indexKeys s.data.length)
  | .arr xs => .ok (indexKeys xs.length)
  | .obj props => .ok (props.map Prod.fst)

/-- First property of a mapping with the given name. -/
def lookupProp (key : String) : List (String × JSValue) → Option JSValue
  | [] => none
  | (k, v) :: rest => if k = key then some v else lookupProp key rest

/-- Element of an array-like value whose index key is `key`, counting from `i`. -/
def lookupIndex {α : Type} (key : String) : Nat → List α → Option α
  | _, [] => none
  | i, x :: rest =>
    if String.mk (Nat.toDigits 10 i) = key then some x else lookupIndex key (i + 1) rest

/-- Names under which a built-in prototype holds a function.  The accessor
`__proto__` of `Object.prototype` and the data property `length` of
`Array.prototype` and `String.prototype` are no functions and are left out. -/
def Prototype.functionNames : Prototype → List String
  | .object =>
    ["constructor", "__defineGetter__", "__defineSetter__", "hasOwnProperty",
     "__lookupGetter__", "__lookupSetter__", "isPrototypeOf", "propertyIsEnumerable",
     "toString", "valueOf", "toLocaleString"]
  | .array =>
    ["constructor", "at", "concat", "copyWithin", "fill", "find", "findIndex", "findLast",
     "findLastIndex", "lastIndexOf", "pop", "push", "reverse", "shift", "unshift", "slice",
     "sort", "splice", "includes", "indexOf", "join", "keys", "entries", "values", "forEach",
     "filter", "flat", "flatMap", "map", "every", "some", "reduce", "reduceRight",
     "toReversed", "toSorted", "toSpliced", "with", "toLocaleString", "toString"]
  | .string =>
    ["constructor", "anchor", "at", "big", "blink", "bold", "charAt", "charCodeAt",
     "codePointAt", "concat", "endsWith", "fontcolor", "fontsize", "fixed", "includes",
     "indexOf", "isWellFormed", "italics", "lastIndexOf", "link", "localeCompare", "match",
     "matchAll", "normalize", "padEnd", "padStart", "repeat", "replace", "replaceAll",
     "search", "slice", "small", "split", "strike", "sub", "substr", "substring", "sup",
     "startsWith", "toString", "toWellFormed", "trim", "trimStart", "trimLeft", "trimEnd",
     "trimRight", "toLocaleLowerCase", "toLocaleUpperCase", "toLowerCase", "toUpperCase",
     "valueOf"]
  | .number =>
    ["constructor", "toExponential", "toFixed", "toPrecision", "toString", "valueOf",
     "toLocaleString"]
  | .boolean => ["constructor", "toString", "valueOf"]

/-- Property names of `Object.prototype`. -/
def objectPrototypeNames : List String :=
  "__proto__" :: Prototype.object.functionNames

/-- The read `state[key]` when the state has no own property `key`: the lookup
goes to the prototype of the state and from there to `Object.prototype`.  The name
`__proto__` gives the prototype of the state itself. -/
def inherited (p : Prototype) (key : String) : PropValue :=
  if key = "__proto__" then .prototype p
  else if key ∈ p.functionNames then .builtinFunction p key
  else if key ∈ Prototype.object.functionNames then .builtinFunction .object key
  else .undefined

/-- The read `state[key]`: an own property if there is one, otherwise what the
prototype chain gives.  A sequence or string has its indexed elements and `length`
as own properties; a string is indexed by code point, which is the JS indexing for
text of the Basic Multilingual Plane.  The read of a property of `null` throws, but
`compareStates` never gets there: `Object.keys` has thrown before. -/
def getProp : JSValue → String → PropValue
  | .null, _ => .undefined
  | .bool _, key => inherited .boolean key
  | .num _, key => inherited .number key
  | .str s, key =>
    if key = "length" then .value (.num (.int s.data.length))
    else
      match lookupIndex key 0 s.data with
      | some c => .value (.str (String.mk [c]))
      | none => inherited .string key
  | .arr xs, key =>
    if key = "length" then .value (.num (.int xs.length))
    else
      match lookupIndex key 0 xs with
      | some x => .value x
      | none => inherited .array key
  | .obj props, key =>
    match lookupProp key props with
    | some v => .value v
    | none => inherited .object key

/-- The call `key.includes(searchString)` on lists of characters: some suffix of
the key starts with the search string. -/
def includesChars (pat : List Char) : List Char → Bool
  | [] => pat.isEmpty
  | c :: cs => pat.isPrefixOf (c :: cs) || includesChars pat cs

/-- The call `key.includes(searchString)`. -/
def includes (key searchString : String) : Bool :=
  includesChars searchString.data key.data

/-- Insertion into a `Set` of strings kept in insertion order. -/
def setAdd (s : List String) (k : String) : List String :=
  if k ∈ s then s else s ++ [k]

/-- The call `new Set(iterable)`: distinct elements in order of first occurrence. -/
def newSet (xs : List String) : List String :=
  xs.foldl setAdd []

/-! ## The reconciler -/

/-- Table of severity weights. -/
structure SeverityWeights where
  SECURITY_GROUP_CHANGE : ℚ
  DATABASE_VERSION_CHANGE : ℚ
  MINOR_PATCH_LEVEL : ℚ
  TAG_CHANGE : ℚ

/-- Weights for calculating the severity score. -/
def SEVERITY_WEIGHTS : SeverityWeights where
  SECURITY_GROUP_CHANGE := 5
  DATABASE_VERSION_CHANGE := 4
  MINOR_PATCH_LEVEL := 1
  TAG_CHANGE := 1 / 2

/-- An entry of the drift report. -/
structure Finding where
  key : String
  change : String
  severity : ℚ
  declared : PropValue
  live : PropValue

/-- Severity and change type `compare` gives a key: the defaults, overridden by
the specialised severity logic. -/
def classify (key : String) : ℚ × String :=
  let severity := SEVERITY_WEIGHTS.MINOR_PATCH_LEVEL
  let changeType := "GENERIC_CHANGE"
  if includes key "securityGroup" then
    (SEVERITY_WEIGHTS.SECURITY_GROUP_CHANGE, "SECURITY_GROUP_CHANGE")
  else if includes key "dbVersion" then
    (SEVERITY_WEIGHTS.DATABASE_VERSION_CHANGE, "DATABASE_VERSION_CHANGE")
  else
    (severity, changeType)

/-- The helper `compare` of `compareStates`, with the report it pushes to passed
in and returned. -/
def compareStates.compare (report : List Finding) (key : String)
    (dVal lVal : PropValue) : List Finding :=
  if JSON.stringify dVal ≠ JSON.stringify lVal then
    report ++ [{ key := key, change := (classify key).2, severity := (classify key).1,
                 declared := dVal, live := lVal }]
  else report

/-- Compares two state objects and returns the drift report. -/
def compareStates (declaredState liveState : JSValue) : Except JSError (List Finding) :=
  match Object.keys declaredState with
  | .error e => .error e
  | .ok dKeys =>
    match Object.keys liveState with
    | .error e => .error e
    | .ok lKeys =>
      .ok ((newSet (dKeys ++ lKeys)).foldl
        (fun report key =>
          compareStates.compare report key (getProp declaredState key) (getProp liveState key))
        [])

/-- Recommendation for no significant drift. -/
def STABLE : String := "\u00e2\u0153\u2026 No Significant Drift. Stable."

/-- Recommendation for severe drift. -/
def SEVERE : String :=
  "\u00e2\u0161\u00a0\u00ef\u00b8 Severe Drift Detected. Requires manual investigation (Rollback recommended)."

/-- Recommendation for minor drift. -/
def MINOR : String :=
  "\u00f0\u0178\u0178\u00a1 Minor Drift Detected. Forward-apply safely recommended."

/-- Recommendation chosen from the total severity (the threshold chain of
`analyzeDrift`). -/
def recommend (totalSeverity : ℚ) : String :=
  if totalSeverity > 5 then SEVERE
  else if totalSeverity > 1 then MINOR
  else STABLE

/-- Value returned by `analyzeDrift`. -/
structure DriftAnalysis where
  totalSeverity : ℚ
  recommendation : String
  driftReport : List Finding

/-- The reconciler, holding the declared state. -/
structure InfraSealReconciler where
  declaredState : JSValue

/-- The method `analyzeDrift(liveState)`. -/
def InfraSealReconciler.analyzeDrift (self : InfraSealReconciler) (liveState : JSValue) :
    Except JSError DriftAnalysis :=
  match compareStates self.declaredState liveState with
  | .error e => .error e
  | .ok driftReport =>
    let totalSeverity := driftReport.foldl (fun sum item => sum + item.severity) 0
    .ok { totalSeverity := totalSeverity, recommendation := recommend totalSeverity,
          driftReport := driftReport }

/-! ## The demonstration states -/

/-- Declared state of the demonstration. -/
def iaC : JSValue :=
  .obj [("env", .str "production"),
        ("dbVersion", .str "postgres-14.5"),
        ("securityGroup", .arr [.str "allow_ssh", .str "allow_web"]),
        ("tags", .obj [("owner", .str "akshaya"), ("cost_center", .str "voryx")])]

/-- Live state of the demonstration. -/
def liveStateWithDrift : JSValue :=
  .obj [("env", .str "production"),
        ("dbVersion", .str "postgres-15.0"),
        ("securityGroup", .arr [.str "allow_ssh"]),
        ("tags", .obj [("owner", .str "akshaya"), ("cost_center", .str "voryx"),
                       ("temp_tag", .str "test")])]

/-- The reconciler of the demonstration. -/
def reconciler : InfraSealReconciler := { declaredState := iaC }

/-- Drift report of the demonstration. -/
def demoReport : List Finding :=
  [{ key := "dbVersion", change := "DATABASE_VERSION_CHANGE", severity := 4,
     declared := .value (.str "postgres-14.5"), live := .value (.str "postgres-15.0") },
   { key := "securityGroup", change := "SECURITY_GROUP_CHANGE", severity := 5,
     declared := .value (.arr [.str "allow_ssh", .str "allow_web"]),
     live := .value (.arr [.str "allow_ssh"]) },
   { key := "tags", change := "GENERIC_CHANGE", severity := 1,
     declared := .value (.obj [("owner", .str "akshaya"), ("cost_center", .str "voryx")]),
     live := .value (.obj [("owner", .str "akshaya"), ("cost_center", .str "voryx"),
                         ("temp_tag", .str "test")]) }]

/-- Value `analyzeDrift` returns in the demonstration. -/
def demoAnalysis : DriftAnalysis :=
  { totalSeverity := 10, recommendation := SEVERE, driftReport := demoReport }

/-- The entry `compare` pushes for a key, or none when the two texts agree. -/
def findingFor (key : String) (dVal lVal : PropValue) : Option Finding :=
  if JSON.stringify dVal ≠ JSON.stringify lVal then
    some { key := key, change := (classify key).2, severity := (classify key).1,
           declared := dVal, live := lVal }
  else none

/-- Scanner state: outside a string, inside one, or right after a backslash
inside one. -/
inductive ScanMode where
  | normal
  | inString
  | escaped

/-- Remainder of a text from the first comma or closing bracket that is outside
every string and bracket pair; `depth` counts the brackets open so far. -/
def skipValue : Nat → ScanMode → List Char → List Char
  | _, _, [] => []
  | n, .escaped, _ :: cs => skipValue n .inString cs
  | n, .inString, c :: cs =>
    if c.toNat = 92 then skipValue n .escaped cs
    else if c.toNat = 34 then skipValue n .normal cs
    else skipValue n .inString cs
  | n, .normal, c :: cs =>
    if c.toNat = 34 then skipValue n .inString cs
    else if c.toNat = 91 ∨ c.toNat = 123 then skipValue (n + 1) .normal cs
    else if c.toNat = 93 ∨ c.toNat = 125 then
      (match n with
       | 0 => c :: cs
       | m + 1 => skipValue m .normal cs)
    else if c.toNat = 44 then
      (match n with
       | 0 => c :: cs
       | m + 1 => skipValue (m + 1) .normal cs)
    else skipValue n .normal cs

/-- Characters that neither open nor close anything outside a string. -/
def isPlain (c : Char) : Bool :=
  !(c.toNat = 34 || c.toNat = 44 || c.toNat = 91 || c.toNat = 93 || c.toNat = 123
    || c.toNat = 125)

/-- A declared state whose only key contains both `dbVersion` and `securityGroup`. -/
def mixedKeyDeclared : JSValue := .obj [("dbVersion-securityGroup", .str "a")]

/-- A live state that differs from `mixedKeyDeclared` at its only key. -/
def mixedKeyLive : JSValue := .obj [("dbVersion-securityGroup", .str "b")]

/-- The finding of `mixedKeyDeclared` against `mixedKeyLive`. -/
def mixedKeyFinding : Finding :=
  { key := "dbVersion-securityGroup", change := "SECURITY_GROUP_CHANGE", severity := 5,
    declared := .value (.str "a"), live := .value (.str "b") }

/-- The `dbVersion` finding of the demonstration. -/
def demoDbFinding : Finding :=
  { key := "dbVersion", change := "DATABASE_VERSION_CHANGE", severity := 4,
    declared := .value (.str "postgres-14.5"), live := .value (.str "postgres-15.0") }

/-- A finding at a key no rule names. -/
def envFinding : Finding :=
  { key := "env", change := "GENERIC_CHANGE", severity := 1,
    declared := .value (.str "production"), live := .value (.str "staging") }

/-- Total severity of a report: the reduce of `analyzeDrift`. -/
def totalSeverityOf (driftReport : List Finding) : ℚ :=
  driftReport.foldl (fun sum item => sum + item.severity) 0

/-- The call `x.toFixed(2)`: the sign, then the nearest multiple of 0.01 (the larger
one on a tie) written with two decimals. -/
def toFixed2 (x : ℚ) : String :=
  let y := if x < 0 then -x else x
  let n := (Rat.floor (y * 100 + 1 / 2)).toNat
  (if x < 0 then "-" else "") ++ String.mk (Nat.toDigits 10 (n / 100)) ++ "."
    ++ String.mk [Nat.digitChar (n % 100 / 10), Nat.digitChar (n % 10)]

/-- The two state objects a call of `analyzeDrift` can reach. -/
inductive StateRef where
  | declared
  | live
  deriving DecidableEq, Repr

/-- What a call of `analyzeDrift` can read or write: the object `this.declaredState`
refers to, the object passed as `liveState`, and the lines on the console. -/
structure World where
  declaredState : JSValue
  liveState : JSValue
  console : List String

/-- The object a reference points to. -/
def World.deref (w : World) : StateRef → JSValue
  | .declared => w.declaredState
  | .live => w.liveState

/-- A program: from a world to the value returned or the error thrown, and the
world it leaves. -/
def Program (α : Type) : Type := World → Except JSError α × World

/-- The program that returns a value and does nothing else. -/
def Program.pure {α : Type} (a : α) : Program α :=
  fun w => (.ok a, w)

/-- Sequencing of programs: a thrown error ends the run in the world reached. -/
def Program.bind {α β : Type} (p : Program α) (f : α → Program β) : Program β :=
  fun w =>
    match p w with
    | (.ok a, w') => f a w'
    | (.error e, w') => (.error e, w')

instance : Monad Program where
  pure := Program.pure
  bind := Program.bind

/-- The call `Object.keys(state)` on a referenced object. -/
def objectKeysM (state : StateRef) : Program (List String) :=
  fun w => (Object.keys (w.deref state), w)

/-- The read `state[key]` on a referenced object. -/
def readPropM (state : StateRef) (key : String) : Program PropValue :=
  fun w => (.ok (getProp (w.deref state) key), w)

/-- The call `console.log(line)`. -/
def consoleLogM (line : String) : Program Unit :=
  fun w => (.ok (), { w with console := w.console ++ [line] })

/-- The function `compareStates` as a program over its two parameters, statement
by statement: the two `Object.keys` calls, the key set, and the loop that reads
both values and calls `compare`, which pushes to the local `report`. -/
def compareStatesM (declaredState liveState : StateRef) : Program (List Finding) := do
  let dKeys ← objectKeysM declaredState
  let lKeys ← objectKeysM liveState
  let keys := newSet (dKeys ++ lKeys)
  keys.foldlM
    (fun report key => do
      let dVal ← readPropM declaredState key
      let lVal ← readPropM liveState key
      pure (compareStates.compare report key dVal lVal))
    []

/-- The method `analyzeDrift` as a program, statement by statement, with its three
`console.log` calls. -/
def analyzeDriftM : Program DriftAnalysis := do
  let driftReport ← compareStatesM .declared .live
  let totalSeverity := driftReport.foldl (fun sum item => sum + item.severity) 0
  let recommendation := recommend totalSeverity
  consoleLogM "[InfraSeal] Drift Analysis Complete."
  consoleLogM ("Total Severity Score: " ++ toFixed2 totalSeverity)
  consoleLogM ("Recommendation: " ++ recommendation)
  pure { totalSeverity := totalSeverity, recommendation := recommendation,
         driftReport := driftReport }

/-- The three lines `analyzeDrift` writes to the console. -/
def consoleLines (a : DriftAnalysis) : List String :=
  ["[InfraSeal] Drift Analysis Complete.",
   "Total Severity Score: " ++ toFixed2 a.totalSeverity,
   "Recommendation: " ++ a.recommendation]

/-- The finding for an `instanceType` field that changed from `t2.micro` to
`t3.large`. -/
def instanceTypeFinding : Finding :=
  { key := "instanceType", change := "GENERIC_CHANGE", severity := 1,
    declared := .value (.str "t2.micro"), live := .value (.str "t3.large") }

/-- A finding with its declared and live values exchanged. -/
def swapSides (f : Finding) : Finding :=
  { f with declared := f.live, live := f.declared }

/-! ## Basic facts -/

theorem recommendations_distinct : SEVERE ≠ MINOR ∧ SEVERE ≠ STABLE ∧ MINOR ≠ STABLE := by
  decide

theorem analyzeDrift_of_report (self : InfraSealReconciler) (liveState : JSValue)
    (report : List Finding) (h : compareStates self.declaredState liveState = .ok report) :
    self.analyzeDrift liveState = .ok
      { totalSeverity := report.foldl (fun sum item => sum + item.severity) 0,
        recommendation := recommend (report.foldl (fun sum item => sum + item.severity) 0),
        driftReport := report } := by
  simp [InfraSealReconciler.analyzeDrift, h]

theorem analyzeDrift_ok_inv (self : InfraSealReconciler) (liveState : JSValue)
    (r : DriftAnalysis) (h : self.analyzeDrift liveState = .ok r) :
    compareStates self.declaredState liveState = .ok r.driftReport ∧
    r.totalSeverity = r.driftReport.foldl (fun sum item => sum + item.severity) 0 ∧
    r.recommendation = recommend r.totalSeverity := by
  unfold InfraSealReconciler.analyzeDrift at h
  cases hc : compareStates self.declaredState liveState with
  | error e => rw [hc] at h; cases h
  | ok report =>
    rw [hc] at h
    simp only [Except.ok.injEq] at h
    subst h
    exact ⟨rfl, rfl, rfl⟩

theorem foldl_severity_eq (report : List Finding) (init : ℚ) :
    report.foldl (fun sum item => sum + item.severity) init
      = init + (report.map Finding.severity).sum := by
  induction report generalizing init with
  | nil => simp
  | cons f rest ih => simp [ih, add_assoc]

theorem demo_compareStates : compareStates iaC liveStateWithDrift = .ok demoReport := by
  rfl

theorem demo_analyzeDrift : reconciler.analyzeDrift liveStateWithDrift = .ok demoAnalysis := by
  rw [analyzeDrift_of_report reconciler liveStateWithDrift demoReport demo_compareStates]
  have hs : demoReport.foldl (fun sum item => sum + item.severity) 0 = 10 := by
    simp [demoReport]; norm_num
  rw [hs]
  have hr : recommend 10 = SEVERE := by
    have h5 : (10 : ℚ) > 5 := by norm_num
    simp [recommend, h5]
  rw [hr]
  rfl

/-! ## The report as a filter over the key set -/

theorem compare_eq_append (report : List Finding) (key : String) (dVal lVal : PropValue) :
    compareStates.compare report key dVal lVal
      = report ++ (findingFor key dVal lVal).toList := by
  unfold compareStates.compare findingFor
  split <;> simp

theorem foldl_compare_eq (g h : String → PropValue) (keys : List String)
    (init : List Finding) :
    keys.foldl (fun report key => compareStates.compare report key (g key) (h key)) init
      = init ++ keys.filterMap (fun k => findingFor k (g k) (h k)) := by
  induction keys generalizing init with
  | nil => simp
  | cons k rest ih =>
    rw [List.foldl_cons, ih, compare_eq_append]
    cases hk : findingFor k (g k) (h k) <;> simp [List.filterMap_cons, hk]

theorem mem_foldl_setAdd (xs acc : List String) (k : String) :
    k ∈ xs.foldl setAdd acc ↔ k ∈ acc ∨ k ∈ xs := by
  induction xs generalizing acc with
  | nil => simp
  | cons x rest ih =>
    rw [List.foldl_cons, ih]
    unfold setAdd
    by_cases hx : x ∈ acc
    · simp only [hx, if_true, List.mem_cons]
      constructor
      · rintro (h | h)
        · exact Or.inl h
        · exact Or.inr (Or.inr h)
      · rintro (h | h | h)
        · exact Or.inl h
        · exact Or.inl (h ▸ hx)
        · exact Or.inr h
    · simp only [hx, if_false, List.mem_append, List.mem_singleton, List.mem_cons]
      tauto

theorem nodup_foldl_setAdd (xs acc : List String) (hacc : acc.Nodup) :
    (xs.foldl setAdd acc).Nodup := by
  induction xs generalizing acc with
  | nil => simpa using hacc
  | cons x rest ih =>
    rw [List.foldl_cons]
    apply ih
    unfold setAdd
    by_cases hx : x ∈ acc
    · simpa [hx] using hacc
    · simp only [hx, if_false]
      rw [List.nodup_append]
      refine ⟨hacc, List.nodup_singleton x, ?_⟩
      intro a ha hb
      rw [List.mem_singleton] at hb
      exact hx (hb ▸ ha)

theorem mem_newSet (xs : List String) (k : String) : k ∈ newSet xs ↔ k ∈ xs := by
  simp [newSet, mem_foldl_setAdd]

theorem nodup_newSet (xs : List String) : (newSet xs).Nodup :=
  nodup_foldl_setAdd xs [] List.nodup_nil

theorem compareStates_eq_filterMap (declaredState liveState : JSValue)
    (dKeys lKeys : List String) (hd : Object.keys declaredState = .ok dKeys)
    (hl : Object.keys liveState = .ok lKeys) :
    compareStates declaredState liveState
      = .ok ((newSet (dKeys ++ lKeys)).filterMap
          (fun k => findingFor k (getProp declaredState k) (getProp liveState k))) := by
  unfold compareStates
  rw [hd, hl]
  simp only [foldl_compare_eq, List.nil_append]

theorem compareStates_ok_inv (declaredState liveState : JSValue) (r : List Finding)
    (h : compareStates declaredState liveState = .ok r) :
    ∃ dKeys lKeys, Object.keys declaredState = .ok dKeys ∧ Object.keys liveState = .ok lKeys ∧
      r = (newSet (dKeys ++ lKeys)).filterMap
          (fun k => findingFor k (getProp declaredState k) (getProp liveState k)) := by
  cases hd : Object.keys declaredState with
  | error e => simp [compareStates, hd] at h
  | ok dKeys =>
    cases hl : Object.keys liveState with
    | error e => simp [compareStates, hd, hl] at h
    | ok lKeys =>
      rw [compareStates_eq_filterMap _ _ _ _ hd hl] at h
      exact ⟨dKeys, lKeys, rfl, rfl, (Except.ok.inj h).symm⟩

theorem keys_returns (v : JSValue) (h : v ≠ .null) : ∃ ks, Object.keys v = .ok ks := by
  cases v with
  | null => exact absurd rfl h
  | bool b => exact ⟨_, rfl⟩
  | num n => exact ⟨_, rfl⟩
  | str s => exact ⟨_, rfl⟩
  | arr xs => exact ⟨_, rfl⟩
  | obj props => exact ⟨_, rfl⟩

theorem compareStates_returns (declaredState liveState : JSValue)
    (hd : declaredState ≠ .null) (hl : liveState ≠ .null) :
    ∃ r, compareStates declaredState liveState = .ok r := by
  obtain ⟨dKeys, hdk⟩ := keys_returns declaredState hd
  obtain ⟨lKeys, hlk⟩ := keys_returns liveState hl
  exact ⟨_, compareStates_eq_filterMap _ _ _ _ hdk hlk⟩

theorem compareStates_obj (d l : List (String × JSValue)) :
    compareStates (.obj d) (.obj l)
      = .ok ((newSet (d.map Prod.fst ++ l.map Prod.fst)).filterMap
          (fun k => findingFor k (getProp (.obj d) k) (getProp (.obj l) k))) :=
  compareStates_eq_filterMap (.obj d) (.obj l) _ _ rfl rfl

theorem findingFor_some (key : String) (dVal lVal : PropValue) (f : Finding)
    (h : findingFor key dVal lVal = some f) :
    JSON.stringify dVal ≠ JSON.stringify lVal ∧ f.key = key ∧ f.change = (classify key).2 ∧
    f.severity = (classify key).1 ∧ f.declared = dVal ∧ f.live = lVal := by
  unfold findingFor at h
  split at h
  · rename_i hne
    cases h
    exact ⟨hne, rfl, rfl, rfl, rfl, rfl⟩
  · cases h

theorem stringify_some_ne {a b : JSValue} (h : JSON.serialize a ≠ JSON.serialize b) :
    JSON.stringify (.value a) ≠ JSON.stringify (.value b) := by
  intro he
  exact h (congrArg String.data (Option.some.inj he))

theorem getProp_obj_of_some {k : String} {d : List (String × JSValue)} {v : JSValue}
    (h : lookupProp k d = some v) : getProp (.obj d) k = .value v := by
  simp only [getProp, h]

theorem getProp_obj_of_none {k : String} {d : List (String × JSValue)}
    (h : lookupProp k d = none) : getProp (.obj d) k = inherited .object k := by
  simp only [getProp, h]

theorem inherited_object_undefined {k : String} (h : k ∉ objectPrototypeNames) :
    inherited .object k = .undefined := by
  simp only [objectPrototypeNames, List.mem_cons, not_or] at h
  simp [inherited, h.1, h.2]

theorem findingFor_self (key : String) (v : PropValue) : findingFor key v v = none := by
  simp [findingFor]

/-- What is known of every entry of a report. -/
theorem mem_report (declaredState liveState : JSValue) (r : List Finding)
    (h : compareStates declaredState liveState = .ok r) (f : Finding) (hf : f ∈ r) :
    f.change = (classify f.key).2 ∧ f.severity = (classify f.key).1 ∧
    f.declared = getProp declaredState f.key ∧ f.live = getProp liveState f.key ∧
    JSON.stringify (getProp declaredState f.key) ≠ JSON.stringify (getProp liveState f.key) ∧
    ∃ dKeys lKeys, Object.keys declaredState = .ok dKeys ∧ Object.keys liveState = .ok lKeys ∧
      (f.key ∈ dKeys ∨ f.key ∈ lKeys) := by
  obtain ⟨dKeys, lKeys, hd, hl, hr⟩ := compareStates_ok_inv _ _ _ h
  subst hr
  rw [List.mem_filterMap] at hf
  obtain ⟨k, hk, hfk⟩ := hf
  obtain ⟨hne, h1, h2, h3, h4, h5⟩ := findingFor_some _ _ _ _ hfk
  subst h1
  refine ⟨h2, h3, h4, h5, hne, dKeys, lKeys, hd, hl, ?_⟩
  rw [mem_newSet, List.mem_append] at hk
  exact hk

/-! ## Thresholds and total severity -/

/-- C1: the recommendation is the severe one exactly when the total severity
exceeds 5, the minor one exactly when it exceeds 1 without exceeding 5, and the
stable one exactly when it is at most 1; a score of 5 is minor, a score of 5.01 is
severe; and `analyzeDrift` returns the recommendation of the total it returns. -/
theorem recommendation_thresholds (s : ℚ) :
    (recommend s = SEVERE ↔ 5 < s) ∧
    (recommend s = MINOR ↔ 1 < s ∧ s ≤ 5) ∧
    (recommend s = STABLE ↔ s ≤ 1) ∧
    recommend 5 = MINOR ∧
    recommend (501 / 100) = SEVERE ∧
    ∀ (self : InfraSealReconciler) (liveState : JSValue),
      (self.analyzeDrift liveState).map DriftAnalysis.recommendation
        = (self.analyzeDrift liveState).map (fun r => recommend r.totalSeverity) := by
  obtain ⟨h1, h2, h3⟩ := recommendations_distinct
  refine ⟨?_, ?_, ?_, ?_, ?_, ?_⟩
  · unfold recommend
    by_cases a : s > 5
    · simp [a]
    · by_cases b : s > 1
      · simp [a, b, Ne.symm h1]
      · simp [a, b, Ne.symm h2]
  · unfold recommend
    by_cases a : s > 5
    · simp [a, h1]
    · by_cases b : s > 1
      · simp [a, b]; exact le_of_not_lt a
      · simp [a, b, Ne.symm h3]
  · unfold recommend
    by_cases a : s > 5
    · simp [a, h2]; linarith
    · by_cases b : s > 1
      · simp [a, b, h3]
      · simp [a, b]; exact le_of_not_lt b
  · have a : ¬ ((5 : ℚ) > 5) := by norm_num
    have b : (5 : ℚ) > 1 := by norm_num
    simp [recommend, a, b]
  · have a : (501 / 100 : ℚ) > 5 := by norm_num
    simp [recommend, a]
  · intro self liveState
    cases h : self.analyzeDrift liveState with
    | error e => rfl
    | ok r =>
      have := (analyzeDrift_ok_inv self liveState r h).2.2
      simp [Except.map, this]

/-- C2: for roots other than null, `analyzeDrift` returns, and the total severity
it returns is the sum of the severities of the findings of the report it returns,
hence 0 when that report is empty. -/
theorem totalSeverity_eq_sum (self : InfraSealReconciler) (liveState : JSValue)
    (hd : self.declaredState ≠ .null) (hl : liveState ≠ .null) :
    ∃ r, self.analyzeDrift liveState = .ok r ∧
      r.totalSeverity = (r.driftReport.map Finding.severity).sum ∧
      (r.driftReport = [] → r.totalSeverity = 0) := by
  obtain ⟨report, hrep⟩ := compareStates_returns _ _ hd hl
  refine ⟨_, analyzeDrift_of_report self liveState report hrep, ?_, ?_⟩
  · simp only [foldl_severity_eq, zero_add]
  · intro he
    simp only at he
    simp only [he, List.foldl_nil]

/-- C2 on the demonstration. -/
theorem totalSeverity_eq_sum_witness :
    ∃ r, reconciler.analyzeDrift liveStateWithDrift = .ok r ∧
      r.totalSeverity = (r.driftReport.map Finding.severity).sum ∧
      (r.driftReport = [] → r.totalSeverity = 0) :=
  totalSeverity_eq_sum reconciler liveStateWithDrift (fun h => by cases h)
    (fun h => by cases h)

/-! ## The demonstration -/

/-- C3, as stated, fails: the report of the demonstration has no entry at
`securityGroup[1]` or at `tags.temp_tag`, and its total is not 9.5. -/
theorem demo_scenario_counterexample :
    ¬ ∃ r : DriftAnalysis, reconciler.analyzeDrift liveStateWithDrift = .ok r ∧
        r.driftReport.length = 3 ∧
        (∃ f ∈ r.driftReport, f.key = "dbVersion" ∧ f.change = "DATABASE_VERSION_CHANGE" ∧
          f.severity = 4) ∧
        (∃ f ∈ r.driftReport, f.key = "securityGroup[1]" ∧ f.change = "SECURITY_GROUP_CHANGE" ∧
          f.severity = 5) ∧
        (∃ f ∈ r.driftReport, f.key = "tags.temp_tag" ∧ f.change = "TAG_CHANGE" ∧
          f.severity = 1 / 2) ∧
        r.totalSeverity = 19 / 2 ∧ r.recommendation = SEVERE := by
  rintro ⟨r, hr, -, -, ⟨f, hf, hkey, -, -⟩, -⟩
  rw [demo_analyzeDrift] at hr
  cases hr
  have hkeys : f.key ∈ demoAnalysis.driftReport.map Finding.key := List.mem_map_of_mem _ hf
  rw [hkey] at hkeys
  revert hkeys
  decide

/-- C3, amended: the demonstration reports exactly three findings, at the
top-level keys `dbVersion`, `securityGroup` and `tags` in this order: a
DATABASE_VERSION_CHANGE of severity 4, a SECURITY_GROUP_CHANGE of severity 5 that
carries the two whole sequences, and one entry for `tags` that carries the two
whole mappings; the total is 9 plus the severity of the `tags` entry and the
recommendation is the severe one. -/
theorem demo_scenario_findings :
    ∃ (r : DriftAnalysis) (fDb fSg fTags : Finding),
      reconciler.analyzeDrift liveStateWithDrift = .ok r ∧
      r.driftReport = [fDb, fSg, fTags] ∧
      fDb.key = "dbVersion" ∧ fDb.change = "DATABASE_VERSION_CHANGE" ∧ fDb.severity = 4 ∧
      fDb.declared = .value (.str "postgres-14.5") ∧ fDb.live = .value (.str "postgres-15.0") ∧
      fSg.key = "securityGroup" ∧ fSg.change = "SECURITY_GROUP_CHANGE" ∧ fSg.severity = 5 ∧
      fSg.declared = .value (.arr [.str "allow_ssh", .str "allow_web"]) ∧
      fSg.live = .value (.arr [.str "allow_ssh"]) ∧
      fTags.key = "tags" ∧
      fTags.declared = .value (.obj [("owner", .str "akshaya"), ("cost_center", .str "voryx")]) ∧
      fTags.live = .value (.obj [("owner", .str "akshaya"), ("cost_center", .str "voryx"),
                               ("temp_tag", .str "test")]) ∧
      r.totalSeverity = 9 + fTags.severity ∧ r.recommendation = SEVERE := by
  refine ⟨demoAnalysis, _, _, _, demo_analyzeDrift, rfl, rfl, rfl, rfl, rfl, rfl, rfl, rfl, rfl,
    rfl, rfl, rfl, rfl, rfl, ?_, rfl⟩
  show (10 : ℚ) = 9 + 1
  norm_num

/-! ## Reflexivity -/

/-- C4: comparing a mapping against itself yields an empty report. -/
theorem compareStates_self (props : List (String × JSValue)) :
    compareStates (.obj props) (.obj props) = .ok [] := by
  rw [compareStates_obj]
  congr 1
  rw [List.filterMap_eq_nil_iff]
  intro k _
  exact findingFor_self k _

/-! ## Classification -/

theorem classify_securityGroup (key : String) (h : includes key "securityGroup" = true) :
    classify key = (5, "SECURITY_GROUP_CHANGE") := by
  simp [classify, h, SEVERITY_WEIGHTS]

theorem classify_dbVersion (key : String) (h : includes key "dbVersion" = true)
    (hs : includes key "securityGroup" = false) :
    classify key = (4, "DATABASE_VERSION_CHANGE") := by
  simp [classify, h, hs, SEVERITY_WEIGHTS]

theorem classify_generic (key : String) (h : includes key "dbVersion" = false)
    (hs : includes key "securityGroup" = false) :
    classify key = (1, "GENERIC_CHANGE") := by
  simp [classify, h, hs, SEVERITY_WEIGHTS]

/-- C5: a finding whose key contains `securityGroup` is a SECURITY_GROUP_CHANGE of
severity 5, also when the key contains `dbVersion` too; a finding whose key
contains `dbVersion` but not `securityGroup` is a DATABASE_VERSION_CHANGE of
severity 4. -/
theorem classification_first_match (declaredState liveState : JSValue) (r : List Finding)
    (h : compareStates declaredState liveState = .ok r) (f : Finding) (hf : f ∈ r) :
    (includes f.key "securityGroup" = true →
      f.change = "SECURITY_GROUP_CHANGE" ∧ f.severity = 5) ∧
    (includes f.key "dbVersion" = true → includes f.key "securityGroup" = false →
      f.change = "DATABASE_VERSION_CHANGE" ∧ f.severity = 4) := by
  obtain ⟨hc, hs, -⟩ := mem_report _ _ _ h f hf
  constructor
  · intro h1
    rw [hc, hs, classify_securityGroup _ h1]
    exact ⟨rfl, rfl⟩
  · intro h1 h2
    rw [hc, hs, classify_dbVersion _ h1 h2]
    exact ⟨rfl, rfl⟩

/-- C5 on a key that contains both substrings, and on the `dbVersion` finding of the
demonstration. -/
theorem classification_first_match_witness :
    (compareStates mixedKeyDeclared mixedKeyLive = .ok [mixedKeyFinding] ∧
      includes mixedKeyFinding.key "dbVersion" = true ∧
      mixedKeyFinding.change = "SECURITY_GROUP_CHANGE" ∧ mixedKeyFinding.severity = 5) ∧
    (demoDbFinding ∈ demoReport ∧
      demoDbFinding.change = "DATABASE_VERSION_CHANGE" ∧ demoDbFinding.severity = 4) :=
  ⟨⟨by rfl, by decide,
    (classification_first_match mixedKeyDeclared mixedKeyLive [mixedKeyFinding] (by rfl)
      mixedKeyFinding (List.mem_singleton.mpr rfl)).1 (by decide)⟩,
   ⟨List.mem_cons_self _ _,
    (classification_first_match iaC liveStateWithDrift demoReport demo_compareStates
      demoDbFinding (List.mem_cons_self _ _)).2 (by decide) (by decide)⟩⟩

/-- C6, evaluated on the demonstration: the key `tags` contains `tags` and `tag`
and neither `securityGroup` nor `dbVersion`, and its finding is a GENERIC_CHANGE
of severity 1, not a TAG_CHANGE of severity 0.5. -/
theorem tags_finding_is_generic :
    includes "tags" "tags" = true ∧ includes "tags" "tag" = true ∧
    includes "tags" "securityGroup" = false ∧ includes "tags" "dbVersion" = false ∧
    ∃ r : List Finding, compareStates iaC liveStateWithDrift = .ok r ∧
      ∃ f ∈ r, f.key = "tags" ∧ f.change = "GENERIC_CHANGE" ∧ f.severity = 1 ∧
        f.change ≠ "TAG_CHANGE" ∧ f.severity ≠ SEVERITY_WEIGHTS.TAG_CHANGE := by
  refine ⟨by decide, by decide, by decide, by decide, demoReport, demo_compareStates,
    demoReport.getLast (by simp [demoReport]), by simp [demoReport], rfl, rfl, rfl, by decide, ?_⟩
  show (1 : ℚ) ≠ SEVERITY_WEIGHTS.TAG_CHANGE
  simp [SEVERITY_WEIGHTS]

/-- C7: every finding carries one category of the rule table together with the
severity the table pairs with it, so its severity never disagrees with its
category, and a finding whose key matches no specific rule is a GENERIC_CHANGE of
severity 1. -/
theorem finding_category_in_table (declaredState liveState : JSValue) (r : List Finding)
    (h : compareStates declaredState liveState = .ok r) (f : Finding) (hf : f ∈ r) :
    ((f.change = "SECURITY_GROUP_CHANGE" ∧ f.severity = 5) ∨
     (f.change = "DATABASE_VERSION_CHANGE" ∧ f.severity = 4) ∨
     (f.change = "TAG_CHANGE" ∧ f.severity = 1 / 2) ∨
     (f.change = "GENERIC_CHANGE" ∧ f.severity = 1)) ∧
    (f.change = "SECURITY_GROUP_CHANGE" → f.severity = 5) ∧
    (f.change = "DATABASE_VERSION_CHANGE" → f.severity = 4) ∧
    (f.change = "TAG_CHANGE" → f.severity = 1 / 2) ∧
    (f.change = "GENERIC_CHANGE" → f.severity = 1) ∧
    (includes f.key "securityGroup" = false → includes f.key "dbVersion" = false →
      includes f.key "tags" = false → includes f.key "tag" = false →
      f.change = "GENERIC_CHANGE" ∧ f.severity = 1) := by
  obtain ⟨hc, hs, -⟩ := mem_report _ _ _ h f hf
  have key : (f.change = "SECURITY_GROUP_CHANGE" ∧ f.severity = 5) ∨
      (f.change = "DATABASE_VERSION_CHANGE" ∧ f.severity = 4) ∨
      (f.change = "GENERIC_CHANGE" ∧ f.severity = 1) := by
    cases h1 : includes f.key "securityGroup" with
    | true => rw [hc, hs, classify_securityGroup _ h1]; exact Or.inl ⟨rfl, rfl⟩
    | false =>
      cases h2 : includes f.key "dbVersion" with
      | true => rw [hc, hs, classify_dbVersion _ h2 h1]; exact Or.inr (Or.inl ⟨rfl, rfl⟩)
      | false => rw [hc, hs, classify_generic _ h2 h1]; exact Or.inr (Or.inr ⟨rfl, rfl⟩)
  have d1 : "SECURITY_GROUP_CHANGE" ≠ "DATABASE_VERSION_CHANGE" := by decide
  have d2 : "SECURITY_GROUP_CHANGE" ≠ "TAG_CHANGE" := by decide
  have d3 : "SECURITY_GROUP_CHANGE" ≠ "GENERIC_CHANGE" := by decide
  have d4 : "DATABASE_VERSION_CHANGE" ≠ "TAG_CHANGE" := by decide
  have d5 : "DATABASE_VERSION_CHANGE" ≠ "GENERIC_CHANGE" := by decide
  have d6 : "GENERIC_CHANGE" ≠ "TAG_CHANGE" := by decide
  refine ⟨?_, ?_, ?_, ?_, ?_, ?_⟩
  · rcases key with k | k | k
    · exact Or.inl k
    · exact Or.inr (Or.inl k)
    · exact Or.inr (Or.inr (Or.inr k))
  · intro hch
    rcases key with ⟨k, hv⟩ | ⟨k, _⟩ | ⟨k, _⟩
    · exact hv
    · exact absurd (hch.symm.trans k) d1
    · exact absurd (hch.symm.trans k) d3
  · intro hch
    rcases key with ⟨k, _⟩ | ⟨k, hv⟩ | ⟨k, _⟩
    · exact absurd (k.symm.trans hch) d1
    · exact hv
    · exact absurd (hch.symm.trans k) d5
  · intro hch
    rcases key with ⟨k, _⟩ | ⟨k, _⟩ | ⟨k, _⟩
    · exact absurd (k.symm.trans hch) d2
    · exact absurd (k.symm.trans hch) d4
    · exact absurd (k.symm.trans hch) d6
  · intro hch
    rcases key with ⟨k, _⟩ | ⟨k, _⟩ | ⟨k, hv⟩
    · exact absurd (k.symm.trans hch) d3
    · exact absurd (k.symm.trans hch) d5
    · exact hv
  · intro h1 h2 _ _
    rw [hc, hs, classify_generic _ h2 h1]
    exact ⟨rfl, rfl⟩

/-- C7 on a finding at the key `env`. -/
theorem finding_category_in_table_witness :
    compareStates (.obj [("env", .str "production")]) (.obj [("env", .str "staging")])
      = .ok [envFinding] ∧
    (envFinding.change = "GENERIC_CHANGE" → envFinding.severity = 1) ∧
    (includes envFinding.key "securityGroup" = false →
      includes envFinding.key "dbVersion" = false →
      includes envFinding.key "tags" = false → includes envFinding.key "tag" = false →
      envFinding.change = "GENERIC_CHANGE" ∧ envFinding.severity = 1) :=
  ⟨by rfl,
   (finding_category_in_table
      (.obj [("env", .str "production")]) (.obj [("env", .str "staging")])
      [envFinding] (by rfl) envFinding (List.mem_singleton.mpr rfl)).2.2.2.2⟩

/-! ## Key order -/

theorem lookupProp_perm {d d' : List (String × JSValue)} (hp : d'.Perm d)
    (nd : (d'.map Prod.fst).Nodup) (k : String) : lookupProp k d' = lookupProp k d := by
  induction hp with
  | nil => rfl
  | cons x _ ih =>
    obtain ⟨a, v⟩ := x
    simp only [lookupProp]
    split
    · rfl
    · exact ih (List.nodup_cons.mp nd).2
  | swap x y rest =>
    obtain ⟨a, v⟩ := x
    obtain ⟨b, w⟩ := y
    simp only [lookupProp]
    by_cases ha : a = k
    · by_cases hb : b = k
      · exfalso
        simp only [List.map_cons, List.nodup_cons, List.mem_cons] at nd
        exact nd.1 (Or.inl (hb.trans ha.symm))
      · simp [ha, hb]
    · by_cases hb : b = k
      · simp [ha, hb]
      · simp [ha, hb]
  | trans h1 _ ih1 ih2 =>
    exact (ih1 nd).trans (ih2 (((h1.map Prod.fst).nodup_iff).mp nd))

theorem getProp_obj_perm {d d' : List (String × JSValue)} (hp : d'.Perm d)
    (nd : (d'.map Prod.fst).Nodup) (k : String) : getProp (.obj d') k = getProp (.obj d) k := by
  simp only [getProp, lookupProp_perm hp nd k]

theorem newSet_perm (xs ys : List String) (h : ∀ k, k ∈ xs ↔ k ∈ ys) :
    (newSet xs).Perm (newSet ys) := by
  rw [List.perm_ext_iff_of_nodup (nodup_newSet xs) (nodup_newSet ys)]
  intro k
  rw [mem_newSet, mem_newSet]
  exact h k

/-- C8, as stated, fails twice: reordering the keys of a nested mapping turns an
empty report into one finding, also when the two states have the same content; and
reordering the keys of a root mapping reorders the report. -/
theorem key_order_counterexample :
    List.Perm [("env", JSValue.str "b"), ("owner", JSValue.str "a")]
      [("owner", JSValue.str "a"), ("env", JSValue.str "b")] ∧
    compareStates (.obj [("tags", .obj [("owner", .str "a"), ("env", .str "b")])])
      (.obj [("tags", .obj [("owner", .str "a"), ("env", .str "b")])]) = .ok [] ∧
    (∃ f, compareStates (.obj [("tags", .obj [("env", .str "b"), ("owner", .str "a")])])
      (.obj [("tags", .obj [("owner", .str "a"), ("env", .str "b")])]) = .ok [f]) ∧
    (∃ f g, compareStates (.obj [("x", .str "1"), ("y", .str "2")])
        (.obj [("x", .str "3"), ("y", .str "4")]) = .ok [f, g] ∧
      compareStates (.obj [("y", .str "2"), ("x", .str "1")])
        (.obj [("x", .str "3"), ("y", .str "4")]) = .ok [g, f] ∧ f.key ≠ g.key) :=
  ⟨List.Perm.swap _ _ _, by rfl, ⟨_, by rfl⟩, ⟨_, _, by rfl, by rfl, by decide⟩⟩

/-- C8, amended: reordering the keys of the two root mappings, their values left
as they are, permutes the report; and two root mappings with the same keys and
values in different orders produce no findings. -/
theorem root_key_order_permutes_report (d d' l l' : List (String × JSValue))
    (hd : d'.Perm d) (hl : l'.Perm l)
    (nd : (d.map Prod.fst).Nodup) (nl : (l.map Prod.fst).Nodup) :
    (∃ r r', compareStates (.obj d) (.obj l) = .ok r ∧
      compareStates (.obj d') (.obj l') = .ok r' ∧ r'.Perm r) ∧
    compareStates (.obj d') (.obj d) = .ok [] := by
  have nd' : (d'.map Prod.fst).Nodup := ((hd.map Prod.fst).nodup_iff).mpr nd
  have nl' : (l'.map Prod.fst).Nodup := ((hl.map Prod.fst).nodup_iff).mpr nl
  constructor
  · refine ⟨_, _, compareStates_obj d l, compareStates_obj d' l', ?_⟩
    have hfun : (fun k => findingFor k (getProp (.obj d') k) (getProp (.obj l') k))
        = (fun k => findingFor k (getProp (.obj d) k) (getProp (.obj l) k)) := by
      funext k
      rw [getProp_obj_perm hd nd' k, getProp_obj_perm hl nl' k]
    rw [hfun]
    apply List.Perm.filterMap
    apply newSet_perm
    intro k
    simp only [List.mem_append]
    rw [(hd.map Prod.fst).mem_iff, (hl.map Prod.fst).mem_iff]
  · rw [compareStates_obj]
    congr 1
    rw [List.filterMap_eq_nil_iff]
    intro k _
    rw [getProp_obj_perm hd nd' k]
    exact findingFor_self k _

/-- C8, amended, on two mappings of two keys. -/
theorem root_key_order_permutes_report_witness :
    (∃ r r', compareStates (.obj [("x", .str "1"), ("y", .str "2")])
        (.obj [("x", .str "3"), ("y", .str "4")]) = .ok r ∧
      compareStates (.obj [("y", .str "2"), ("x", .str "1")])
        (.obj [("y", .str "4"), ("x", .str "3")]) = .ok r' ∧ r'.Perm r) ∧
    compareStates (.obj [("y", .str "2"), ("x", .str "1")])
      (.obj [("x", .str "1"), ("y", .str "2")]) = .ok [] :=
  root_key_order_permutes_report
    [("x", .str "1"), ("y", .str "2")] [("y", .str "2"), ("x", .str "1")]
    [("x", .str "3"), ("y", .str "4")] [("y", .str "4"), ("x", .str "3")]
    (List.Perm.swap _ _ _) (List.Perm.swap _ _ _) (by decide) (by decide)

/-! ## Nested values -/

theorem filter_key_filterMap (g : String → Option Finding)
    (hg : ∀ k f, g k = some f → f.key = k) (k : String) (ks : List String)
    (hn : ks.Nodup) (hk : k ∈ ks) :
    (ks.filterMap g).filter (fun f => decide (f.key = k)) = (g k).toList := by
  have none_of_not_mem : ∀ (ks : List String), k ∉ ks →
      (ks.filterMap g).filter (fun f => decide (f.key = k)) = [] := by
    intro ks hnot
    rw [List.filter_eq_nil_iff]
    intro f hf
    rw [List.mem_filterMap] at hf
    obtain ⟨a, ha, hfa⟩ := hf
    have := hg a f hfa
    simp only [decide_eq_true_eq]
    intro hfk
    exact hnot (hfk ▸ this ▸ ha)
  induction ks with
  | nil => cases hk
  | cons x rest ih =>
    obtain ⟨hx, hrest⟩ := List.nodup_cons.mp hn
    by_cases hxk : x = k
    · subst hxk
      cases hgx : g x with
      | none => rw [List.filterMap_cons_none hgx, none_of_not_mem rest hx]; rfl
      | some f =>
        rw [List.filterMap_cons_some hgx, List.filter_cons_of_pos (by simp [hg x f hgx]),
          none_of_not_mem rest hx]
        rfl
    · have hk' : k ∈ rest := by
        rcases List.mem_cons.mp hk with h | h
        · exact absurd h.symm hxk
        · exact h
      cases hgx : g x with
      | none => rw [List.filterMap_cons_none hgx]; exact ih hrest hk'
      | some f =>
        rw [List.filterMap_cons_some hgx, List.filter_cons_of_neg (by simp [hg x f hgx, hxk])]
        exact ih hrest hk'

theorem mem_keys_of_lookupProp {k : String} {d : List (String × JSValue)} {v : JSValue}
    (h : lookupProp k d = some v) : k ∈ d.map Prod.fst := by
  induction d with
  | nil => cases h
  | cons x rest ih =>
    obtain ⟨a, w⟩ := x
    simp only [lookupProp] at h
    by_cases ha : a = k
    · simp [ha]
    · simp only [ha, if_false] at h
      simp [ih h]

/-- Findings of a report of two mappings that carry a key both define. -/
theorem findings_at_key (d l : List (String × JSValue)) (k : String) (dv lv : JSValue)
    (hd : lookupProp k d = some dv) (hl : lookupProp k l = some lv) :
    ∃ r, compareStates (.obj d) (.obj l) = .ok r ∧
      r.filter (fun f => decide (f.key = k))
        = (findingFor k (.value dv) (.value lv)).toList := by
  refine ⟨_, compareStates_obj d l, ?_⟩
  rw [filter_key_filterMap (fun k => findingFor k (getProp (.obj d) k) (getProp (.obj l) k))
    (fun a f h => (findingFor_some _ _ _ _ h).2.1) k _ (nodup_newSet _)
    (by rw [mem_newSet, List.mem_append]; exact Or.inl (mem_keys_of_lookupProp hd))]
  rw [getProp_obj_of_some hd, getProp_obj_of_some hl]

/-- C10, as stated, fails: in the demonstration the difference inside `tags` is
not reported at `tags.temp_tag`; the report has a finding at the enclosing key
`tags`. -/
theorem nested_path_counterexample :
    ¬ ∃ r : List Finding, compareStates iaC liveStateWithDrift = .ok r ∧
        (∃ f ∈ r, f.key = "tags.temp_tag") ∧ ¬ ∃ f ∈ r, f.key = "tags" := by
  rintro ⟨r, hr, ⟨f, hf, hkey⟩, -⟩
  rw [demo_compareStates] at hr
  cases hr
  have hkeys : f.key ∈ demoReport.map Finding.key := List.mem_map_of_mem _ hf
  rw [hkey] at hkeys
  revert hkeys
  decide

/-- C10, amended: comparison is one level deep.  For all root mappings, every
finding sits at a key of one of the two and carries the two values read at that
key; and when a key holds a mapping on both sides and the two mappings are written
differently by `JSON.stringify`, the report holds exactly one finding for that
key, carrying the two whole mappings. -/
theorem nested_difference_reported_at_root_key (d l : List (String × JSValue)) :
    ∃ r, compareStates (.obj d) (.obj l) = .ok r ∧
      (∀ f ∈ r, (f.key ∈ d.map Prod.fst ∨ f.key ∈ l.map Prod.fst) ∧
        f.declared = getProp (.obj d) f.key ∧ f.live = getProp (.obj l) f.key) ∧
      (∀ (k : String) (dv lv : List (String × JSValue)),
        lookupProp k d = some (.obj dv) → lookupProp k l = some (.obj lv) →
        JSON.serialize (.obj dv) ≠ JSON.serialize (.obj lv) →
        r.filter (fun f => decide (f.key = k))
          = [{ key := k, change := (classify k).2, severity := (classify k).1,
               declared := .value (.obj dv), live := .value (.obj lv) }]) := by
  refine ⟨_, compareStates_obj d l, ?_, ?_⟩
  · intro f hf
    obtain ⟨-, -, h3, h4, -, dKeys, lKeys, hdk, hlk, hmem⟩ :=
      mem_report _ _ _ (compareStates_obj d l) f hf
    cases hdk
    cases hlk
    exact ⟨hmem, h3, h4⟩
  · intro k dv lv hd hl hne
    obtain ⟨r, hr, hfilter⟩ := findings_at_key d l k _ _ hd hl
    rw [compareStates_obj] at hr
    cases hr
    rw [hfilter]
    have : JSON.stringify (.value (.obj dv)) ≠ JSON.stringify (.value (.obj lv)) :=
      stringify_some_ne hne
    simp [findingFor, this]

/-- C10, amended, on the `tags` mapping of the demonstration. -/
theorem nested_difference_reported_at_root_key_witness :
    ∃ r, compareStates iaC liveStateWithDrift = .ok r ∧
      (∀ f ∈ r, f.declared = getProp iaC f.key ∧ f.live = getProp liveStateWithDrift f.key) ∧
      r.filter (fun f => decide (f.key = "tags"))
        = [{ key := "tags", change := (classify "tags").2, severity := (classify "tags").1,
             declared := .value (.obj [("owner", .str "akshaya"), ("cost_center", .str "voryx")]),
             live := .value (.obj [("owner", .str "akshaya"), ("cost_center", .str "voryx"),
                                 ("temp_tag", .str "test")]) }] := by
  obtain ⟨r, hr, hall, hkey⟩ := nested_difference_reported_at_root_key
    [("env", .str "production"), ("dbVersion", .str "postgres-14.5"),
     ("securityGroup", .arr [.str "allow_ssh", .str "allow_web"]),
     ("tags", .obj [("owner", .str "akshaya"), ("cost_center", .str "voryx")])]
    [("env", .str "production"), ("dbVersion", .str "postgres-15.0"),
     ("securityGroup", .arr [.str "allow_ssh"]),
     ("tags", .obj [("owner", .str "akshaya"), ("cost_center", .str "voryx"),
                    ("temp_tag", .str "test")])]
  exact ⟨r, hr, fun f hf => (hall f hf).2, hkey "tags" _ _ (by rfl) (by rfl) (by decide)⟩

/-! ## The text of a value determines where it ends -/

theorem skipValue_plain (n : Nat) (cs r : List Char) (h : ∀ c ∈ cs, isPlain c = true) :
    skipValue n .normal (cs ++ r) = skipValue n .normal r := by
  induction cs with
  | nil => rfl
  | cons c rest ih =>
    have hc := h c (List.mem_cons_self _ _)
    simp only [isPlain, Bool.not_eq_true', Bool.or_eq_false_iff, decide_eq_false_iff_not] at hc
    obtain ⟨⟨⟨⟨⟨h1, h2⟩, h3⟩, h4⟩, h5⟩, h6⟩ := hc
    rw [List.cons_append]
    simp only [skipValue, h1, h2, h3, h4, h5, h6, if_false, or_self]
    exact ih (fun c hc => h c (List.mem_cons_of_mem _ hc))

theorem hexDigit_inert (n : Nat) (hn : n < 16) :
    (JSON.hexDigit n).toNat ≠ 92 ∧ (JSON.hexDigit n).toNat ≠ 34 := by
  interval_cases n <;> decide

theorem skipValue_escapeChar (n : Nat) (c : Char) (r : List Char) :
    skipValue n .inString (JSON.escapeChar c ++ r) = skipValue n .inString r := by
  unfold JSON.escapeChar
  split
  · simp [skipValue]
  · split
    · simp [skipValue]
    · split
      · simp [skipValue]
      · split
        · simp [skipValue]
        · split
          · simp [skipValue]
          · split
            · simp [skipValue]
            · split
              · simp [skipValue]
              · split
                · rename_i h32
                  have a := hexDigit_inert (c.toNat / 16) (by omega)
                  have b := hexDigit_inert (c.toNat % 16) (by omega)
                  simp [skipValue, a.1, a.2, b.1, b.2]
                · rename_i h34 h92 _ _ _ _ _ _
                  simp [skipValue, h34, h92]

theorem skipValue_escaped_body (n : Nat) (cs r : List Char) :
    skipValue n .inString (cs.flatMap JSON.escapeChar ++ r) = skipValue n .inString r := by
  induction cs with
  | nil => rfl
  | cons c rest ih =>
    rw [List.flatMap_cons, List.append_assoc, skipValue_escapeChar, ih]

theorem skipValue_open_quote (n : Nat) (cs : List Char) :
    skipValue n .normal (Char.ofNat 34 :: cs) = skipValue n .inString cs := by
  simp [skipValue]

theorem skipValue_close_quote (n : Nat) (cs : List Char) :
    skipValue n .inString (Char.ofNat 34 :: cs) = skipValue n .normal cs := by
  simp [skipValue]

theorem skipValue_open_bracket (n : Nat) (cs : List Char) :
    skipValue n .normal ('[' :: cs) = skipValue (n + 1) .normal cs := by
  simp [skipValue]

theorem skipValue_close_bracket (n : Nat) (cs : List Char) :
    skipValue (n + 1) .normal (']' :: cs) = skipValue n .normal cs := by
  simp [skipValue]

theorem skipValue_open_brace (n : Nat) (cs : List Char) :
    skipValue n .normal (Char.ofNat 123 :: cs) = skipValue (n + 1) .normal cs := by
  simp [skipValue]

theorem skipValue_close_brace (n : Nat) (cs : List Char) :
    skipValue (n + 1) .normal (Char.ofNat 125 :: cs) = skipValue n .normal cs := by
  simp [skipValue]

theorem skipValue_inner_comma (n : Nat) (cs : List Char) :
    skipValue (n + 1) .normal (',' :: cs) = skipValue (n + 1) .normal cs := by
  simp [skipValue]

theorem skipValue_outer_comma (cs : List Char) :
    skipValue 0 .normal (',' :: cs) = ',' :: cs := by
  simp [skipValue]

theorem skipValue_colon (n : Nat) (cs : List Char) :
    skipValue n .normal (':' :: cs) = skipValue n .normal cs := by
  simp [skipValue]

theorem skipValue_quote (n : Nat) (s : String) (r : List Char) :
    skipValue n .normal (JSON.quote s ++ r) = skipValue n .normal r := by
  unfold JSON.quote
  rw [List.cons_append, List.append_assoc, skipValue_open_quote, skipValue_escaped_body,
    List.singleton_append, skipValue_close_quote]

theorem digitChar_plain (m : Nat) (hm : m < 10) : isPlain (Nat.digitChar m) = true := by
  interval_cases m <;> decide

theorem toDigitsCore_plain (fuel n : Nat) (ds : List Char)
    (hds : ∀ c ∈ ds, isPlain c = true) :
    ∀ c ∈ Nat.toDigitsCore 10 fuel n ds, isPlain c = true := by
  induction fuel generalizing n ds with
  | zero => simpa [Nat.toDigitsCore] using hds
  | succ f ih =>
    have hd : isPlain (Nat.digitChar (n % 10)) = true := digitChar_plain _ (Nat.mod_lt _ (by decide))
    have hcons : ∀ c ∈ Nat.digitChar (n % 10) :: ds, isPlain c = true := by
      intro c hc
      rcases List.mem_cons.mp hc with h | h
      · rw [h]; exact hd
      · exact hds c h
    simp only [Nat.toDigitsCore]
    split
    · exact hcons
    · exact ih _ _ hcons

theorem numberText_plain (x : JSNumber) : ∀ c ∈ JSON.numberText x, isPlain c = true := by
  have hdig : ∀ m, ∀ c ∈ Nat.toDigits 10 m, isPlain c = true := fun m =>
    toDigitsCore_plain _ _ [] (fun c hc => by cases hc)
  cases x with
  | int z =>
    simp only [JSON.numberText]
    split
    · intro c hc
      rcases List.mem_cons.mp hc with h | h
      · rw [h]; decide
      · exact hdig _ c h
    · exact hdig _
  | negZero => decide
  | nan => decide
  | posInf => decide
  | negInf => decide

mutual
theorem skipValue_serialize : ∀ (v : JSValue) (n : Nat) (r : List Char),
    skipValue n .normal (JSON.serialize v ++ r) = skipValue n .normal r
  | .null, n, r => skipValue_plain n _ r (by decide)
  | .bool true, n, r => skipValue_plain n _ r (by decide)
  | .bool false, n, r => skipValue_plain n _ r (by decide)
  | .num x, n, r => skipValue_plain n _ r (numberText_plain x)
  | .str s, n, r => skipValue_quote n s r
  | .arr xs, n, r => by
    have h := skipValue_serializeElems xs n (']' :: r)
    simp only [JSON.serialize, List.cons_append, List.append_assoc, List.nil_append]
    rw [skipValue_open_bracket, h, skipValue_close_bracket]
  | .obj props, n, r => by
    have h := skipValue_serializeProps props n (Char.ofNat 125 :: r)
    simp only [JSON.serialize, List.cons_append, List.append_assoc, List.nil_append]
    rw [skipValue_open_brace, h, skipValue_close_brace]
theorem skipValue_serializeElems : ∀ (xs : List JSValue) (n : Nat) (r : List Char),
    skipValue (n + 1) .normal (JSON.serializeElems xs ++ r) = skipValue (n + 1) .normal r
  | [], _, _ => rfl
  | [x], n, r => by
    simp only [JSON.serializeElems]
    exact skipValue_serialize x (n + 1) r
  | x :: y :: rest, n, r => by
    have h := skipValue_serializeElems (y :: rest) n r
    simp only [JSON.serializeElems, List.append_assoc, List.cons_append]
    rw [skipValue_serialize x (n + 1), skipValue_inner_comma]
    exact h
theorem skipValue_serializeProps : ∀ (props : List (String × JSValue)) (n : Nat)
    (r : List Char),
    skipValue (n + 1) .normal (JSON.serializeProps props ++ r) = skipValue (n + 1) .normal r
  | [], _, _ => rfl
  | [(k, v)], n, r => by
    simp only [JSON.serializeProps, List.append_assoc, List.cons_append]
    rw [skipValue_quote, skipValue_colon]
    exact skipValue_serialize v (n + 1) r
  | (k, v) :: q :: rest, n, r => by
    have h := skipValue_serializeProps (q :: rest) n r
    simp only [JSON.serializeProps, List.append_assoc, List.cons_append]
    rw [skipValue_quote, skipValue_colon, skipValue_serialize v (n + 1), skipValue_inner_comma]
    exact h
end

/-- A value's text followed by a comma determines the text. -/
theorem serialize_comma_cancel (a b : JSValue) (r1 r2 : List Char)
    (h : JSON.serialize a ++ ',' :: r1 = JSON.serialize b ++ ',' :: r2) :
    JSON.serialize a = JSON.serialize b ∧ r1 = r2 := by
  have h1 := skipValue_serialize a 0 (',' :: r1)
  have h2 := skipValue_serialize b 0 (',' :: r2)
  rw [h, h2, skipValue_outer_comma, skipValue_outer_comma] at h1
  have hr : r1 = r2 := (List.cons.inj h1.symm).2
  subst hr
  exact ⟨List.append_cancel_right h, rfl⟩

theorem serialize_swapped_pair_ne (a b : JSValue)
    (h : JSON.serialize a ≠ JSON.serialize b) :
    JSON.serialize (.arr [a, b]) ≠ JSON.serialize (.arr [b, a]) := by
  intro he
  simp only [JSON.serialize, JSON.serializeElems, List.cons.injEq, true_and,
    List.append_assoc, List.cons_append] at he
  exact h (serialize_comma_cancel a b _ _ he).1

/-! ## Sequences -/

/-- C9, as stated, fails: for the distinct values `"x"` and `"y"` the report has one
finding, at the key of the field, not two; and for the distinct values NaN and
null, written alike by `JSON.stringify`, it has none. -/
theorem swapped_sequence_counterexample :
    JSValue.str "x" ≠ JSValue.str "y" ∧
    (∃ f, compareStates (.obj [("rules", .arr [.str "x", .str "y"])])
        (.obj [("rules", .arr [.str "y", .str "x"])]) = .ok [f] ∧ f.key = "rules") ∧
    (¬ ∃ r, compareStates (.obj [("rules", .arr [.str "x", .str "y"])])
        (.obj [("rules", .arr [.str "y", .str "x"])]) = .ok r ∧ r.length = 2) ∧
    JSValue.num .nan ≠ JSValue.null ∧
    compareStates (.obj [("rules", .arr [.num .nan, .null])])
      (.obj [("rules", .arr [.null, .num .nan])]) = .ok [] := by
  refine ⟨fun h => absurd (JSValue.str.inj h) (by decide), ⟨_, by rfl, rfl⟩, ?_,
    fun h => (by cases h), by rfl⟩
  rintro ⟨r, hr, hlen⟩
  have h1 : compareStates (.obj [("rules", .arr [.str "x", .str "y"])])
      (.obj [("rules", .arr [.str "y", .str "x"])])
      = .ok [{ key := "rules", change := "GENERIC_CHANGE", severity := 1,
               declared := .value (.arr [.str "x", .str "y"]),
               live := .value (.arr [.str "y", .str "x"]) }] := by rfl
  rw [h1] at hr
  cases hr
  cases hlen

/-- C9, amended: when `JSON.stringify` writes `a` and `b` differently, comparing
a field that holds the sequence `[a, b]` against one that holds `[b, a]` reports
exactly one finding for that field, at the key of the field, carrying the two
whole sequences. -/
theorem swapped_sequence_single_finding (d l : List (String × JSValue)) (field : String)
    (a b : JSValue)
    (hd : lookupProp field d = some (.arr [a, b]))
    (hl : lookupProp field l = some (.arr [b, a]))
    (hne : JSON.serialize a ≠ JSON.serialize b) :
    ∃ r, compareStates (.obj d) (.obj l) = .ok r ∧
      r.filter (fun f => decide (f.key = field))
        = [{ key := field, change := (classify field).2, severity := (classify field).1,
             declared := .value (.arr [a, b]), live := .value (.arr [b, a]) }] := by
  obtain ⟨r, hr, hfilter⟩ := findings_at_key d l field _ _ hd hl
  refine ⟨r, hr, ?_⟩
  rw [hfilter]
  have := stringify_some_ne (serialize_swapped_pair_ne a b hne)
  simp [findingFor, this]

/-- C9, amended, on the sequences `["x", "y"]` and `["y", "x"]`. -/
theorem swapped_sequence_single_finding_witness :
    ∃ r, compareStates
        (.obj [("env", .str "production"), ("rules", .arr [.str "x", .str "y"])])
        (.obj [("env", .str "production"), ("rules", .arr [.str "y", .str "x"])]) = .ok r ∧
      r.filter (fun f => decide (f.key = "rules"))
        = [{ key := "rules", change := (classify "rules").2, severity := (classify "rules").1,
             declared := .value (.arr [.str "x", .str "y"]),
             live := .value (.arr [.str "y", .str "x"]) }] :=
  swapped_sequence_single_finding _ _ "rules" (.str "x") (.str "y") (by rfl) (by rfl)
    (by decide)

/-! ## Findings key by key -/

theorem lookupProp_eq_none {k : String} {d : List (String × JSValue)}
    (h : k ∉ d.map Prod.fst) : lookupProp k d = none := by
  induction d with
  | nil => rfl
  | cons x rest ih =>
    obtain ⟨a, w⟩ := x
    simp only [List.map_cons, List.mem_cons, not_or] at h
    simp only [lookupProp]
    rw [if_neg (fun e => h.1 e.symm)]
    exact ih h.2

theorem lookupProp_of_mem {k : String} {d : List (String × JSValue)}
    (h : k ∈ d.map Prod.fst) : ∃ v, lookupProp k d = some v := by
  induction d with
  | nil => cases h
  | cons x rest ih =>
    obtain ⟨a, w⟩ := x
    simp only [lookupProp]
    by_cases ha : a = k
    · exact ⟨w, by rw [if_pos ha]⟩
    · rw [if_neg ha]
      simp only [List.map_cons, List.mem_cons] at h
      rcases h with h | h
      · exact absurd h.symm ha
      · exact ih h

theorem filter_key_filterMap_of_not_mem (g : String → Option Finding)
    (hg : ∀ k f, g k = some f → f.key = k) (k : String) (ks : List String) (hk : k ∉ ks) :
    (ks.filterMap g).filter (fun f => decide (f.key = k)) = [] := by
  rw [List.filter_eq_nil_iff]
  intro f hf
  rw [List.mem_filterMap] at hf
  obtain ⟨a, ha, hfa⟩ := hf
  have := hg a f hfa
  simp only [decide_eq_true_eq]
  intro hfk
  exact hk (hfk ▸ this ▸ ha)

/-- The findings of a report of two mappings that carry a given key. -/
theorem report_filter_key (d l : List (String × JSValue)) (k : String) :
    ∃ r, compareStates (.obj d) (.obj l) = .ok r ∧
      r.filter (fun f => decide (f.key = k))
        = (findingFor k (getProp (.obj d) k) (getProp (.obj l) k)).toList := by
  refine ⟨_, compareStates_obj d l, ?_⟩
  by_cases hk : k ∈ newSet (d.map Prod.fst ++ l.map Prod.fst)
  · exact filter_key_filterMap
      (fun k => findingFor k (getProp (.obj d) k) (getProp (.obj l) k))
      (fun a f h => (findingFor_some _ _ _ _ h).2.1) k _ (nodup_newSet _) hk
  · rw [filter_key_filterMap_of_not_mem
      (fun k => findingFor k (getProp (.obj d) k) (getProp (.obj l) k))
      (fun a f h => (findingFor_some _ _ _ _ h).2.1) k _ hk]
    rw [mem_newSet, List.mem_append, not_or] at hk
    rw [getProp_obj_of_none (lookupProp_eq_none hk.1),
      getProp_obj_of_none (lookupProp_eq_none hk.2), findingFor_self]
    rfl

theorem stringify_some_ne_none (v : JSValue) :
    JSON.stringify (.value v) ≠ JSON.stringify .undefined := by
  intro h
  cases h

theorem getProp_obj_of_not_mem {k : String} {d : List (String × JSValue)}
    (hk : k ∉ objectPrototypeNames) (h : k ∉ d.map Prod.fst) :
    getProp (.obj d) k = .undefined := by
  rw [getProp_obj_of_none (lookupProp_eq_none h), inherited_object_undefined hk]

/-- C11, as stated, fails at keys that name a property of `Object.prototype`, which
a read finds through the prototype chain: the key `__proto__`, present only in
the live mapping with an empty mapping as value, yields no finding, and for the
key `constructor`, present only in the live mapping, the finding records a
built-in function as the declared value. -/
theorem one_sided_key_counterexample :
    "__proto__" ∉ ([] : List (String × JSValue)).map Prod.fst ∧
    "__proto__" ∈ [("__proto__", JSValue.obj [])].map Prod.fst ∧
    compareStates (.obj []) (.obj [("__proto__", .obj [])]) = .ok [] ∧
    "constructor" ∉ ([] : List (String × JSValue)).map Prod.fst ∧
    ∃ f, compareStates (.obj []) (.obj [("constructor", .str "x")]) = .ok [f] ∧
      f.key = "constructor" ∧ f.declared = .builtinFunction .object "constructor" :=
  ⟨by decide, by decide, by rfl, by decide, _, by rfl, rfl, rfl⟩

/-- C11, amended: for a key that names no property of `Object.prototype`, a key
only the declared mapping has yields exactly one finding at that key, with the
declared value recorded and `undefined` as live value, and a key only the live
mapping has yields exactly one finding at that key, with the live value recorded
and `undefined` as declared value. -/
theorem one_sided_key_single_finding (d l : List (String × JSValue)) (k : String)
    (hk : k ∉ objectPrototypeNames) :
    (k ∈ d.map Prod.fst → k ∉ l.map Prod.fst →
      ∃ v r, lookupProp k d = some v ∧ compareStates (.obj d) (.obj l) = .ok r ∧
        r.filter (fun f => decide (f.key = k))
          = [{ key := k, change := (classify k).2, severity := (classify k).1,
               declared := .value v, live := .undefined }]) ∧
    (k ∉ d.map Prod.fst → k ∈ l.map Prod.fst →
      ∃ v r, lookupProp k l = some v ∧ compareStates (.obj d) (.obj l) = .ok r ∧
        r.filter (fun f => decide (f.key = k))
          = [{ key := k, change := (classify k).2, severity := (classify k).1,
               declared := .undefined, live := .value v }]) := by
  obtain ⟨r, hr, hfilter⟩ := report_filter_key d l k
  constructor
  · intro hd hl
    obtain ⟨v, hv⟩ := lookupProp_of_mem hd
    refine ⟨v, r, hv, hr, ?_⟩
    rw [hfilter, getProp_obj_of_some hv, getProp_obj_of_not_mem hk hl]
    simp [findingFor, stringify_some_ne_none v]
  · intro hd hl
    obtain ⟨v, hv⟩ := lookupProp_of_mem hl
    refine ⟨v, r, hv, hr, ?_⟩
    rw [hfilter, getProp_obj_of_some hv, getProp_obj_of_not_mem hk hd]
    simp [findingFor, (stringify_some_ne_none v).symm]

/-- C11, amended, on a declared mapping with the one key `a` and a live mapping
with the one key `b`. -/
theorem one_sided_key_single_finding_witness :
    (∃ v r, lookupProp "a" [("a", JSValue.str "1")] = some v ∧
      compareStates (.obj [("a", .str "1")]) (.obj [("b", .str "2")]) = .ok r ∧
      r.filter (fun f => decide (f.key = "a"))
        = [{ key := "a", change := (classify "a").2, severity := (classify "a").1,
             declared := .value v, live := .undefined }]) ∧
    (∃ v r, lookupProp "b" [("b", JSValue.str "2")] = some v ∧
      compareStates (.obj [("a", .str "1")]) (.obj [("b", .str "2")]) = .ok r ∧
      r.filter (fun f => decide (f.key = "b"))
        = [{ key := "b", change := (classify "b").2, severity := (classify "b").1,
             declared := .undefined, live := .value v }]) :=
  ⟨(one_sided_key_single_finding [("a", .str "1")] [("b", .str "2")] "a" (by decide)).1
      (by decide) (by decide),
   (one_sided_key_single_finding [("a", .str "1")] [("b", .str "2")] "b" (by decide)).2
      (by decide) (by decide)⟩

/-- C18, as stated, fails at keys that name a property of `Object.prototype`: the
key `__proto__` is absent from the declared mapping and holds an empty mapping in
the live one, yet the report has no finding for it; and the finding for the key
`valueOf`, absent from the declared mapping, records a built-in function as the
declared value, which is no value of the declared input. -/
theorem report_characterization_counterexample :
    lookupProp "__proto__" [("a", JSValue.str "1")] = none ∧
    lookupProp "__proto__" [("a", JSValue.str "1"), ("__proto__", .obj [])] = some (.obj []) ∧
    compareStates (.obj [("a", .str "1")]) (.obj [("a", .str "1"), ("__proto__", .obj [])])
      = .ok [] ∧
    lookupProp "valueOf" [("a", JSValue.str "1")] = none ∧
    ∃ f, compareStates (.obj [("a", .str "1")]) (.obj [("a", .str "1"), ("valueOf", .str "x")])
        = .ok [f] ∧
      f.key = "valueOf" ∧ f.declared = .builtinFunction .object "valueOf" :=
  ⟨by rfl, by rfl, by rfl, by rfl, _, by rfl, rfl, rfl⟩

/-- C18, amended: the report of two root mappings holds exactly one finding for
each key at which `JSON.stringify` writes the two values read, `declared[key]` and
`live[key]`, differently, such a key being a key of one of the two mappings; it
holds no finding for any other key; every finding carries the two values read at
its key; and at a key that names no property of `Object.prototype` the value read
is the value the mapping holds there, or `undefined` when the key is absent, which
differs from every present value. -/
theorem report_characterization (d l : List (String × JSValue)) :
    ∃ r, compareStates (.obj d) (.obj l) = .ok r ∧
      (∀ k, JSON.stringify (getProp (.obj d) k) ≠ JSON.stringify (getProp (.obj l) k) →
        (k ∈ d.map Prod.fst ∨ k ∈ l.map Prod.fst) ∧
        r.filter (fun f => decide (f.key = k))
          = [{ key := k, change := (classify k).2, severity := (classify k).1,
               declared := getProp (.obj d) k, live := getProp (.obj l) k }]) ∧
      (∀ k, JSON.stringify (getProp (.obj d) k) = JSON.stringify (getProp (.obj l) k) →
        r.filter (fun f => decide (f.key = k)) = []) ∧
      (∀ f ∈ r, (f.key ∈ d.map Prod.fst ∨ f.key ∈ l.map Prod.fst) ∧
        f.declared = getProp (.obj d) f.key ∧ f.live = getProp (.obj l) f.key) ∧
      (∀ k, k ∉ objectPrototypeNames →
        (∀ v, lookupProp k d = some v → getProp (.obj d) k = .value v) ∧
        (k ∉ d.map Prod.fst → getProp (.obj d) k = .undefined) ∧
        (∀ v, lookupProp k l = some v → getProp (.obj l) k = .value v) ∧
        (k ∉ l.map Prod.fst → getProp (.obj l) k = .undefined)) ∧
      (∀ v, JSON.stringify (.value v) ≠ JSON.stringify .undefined) := by
  have hfilter : ∀ k, ∀ r, compareStates (.obj d) (.obj l) = .ok r →
      r.filter (fun f => decide (f.key = k))
        = (findingFor k (getProp (.obj d) k) (getProp (.obj l) k)).toList := by
    intro k r hr
    obtain ⟨r', hr', hf⟩ := report_filter_key d l k
    rw [hr] at hr'
    cases hr'
    exact hf
  refine ⟨_, compareStates_obj d l, ?_, ?_, ?_, ?_, stringify_some_ne_none⟩
  · intro k hne
    constructor
    · by_contra hk
      rw [not_or] at hk
      rw [getProp_obj_of_none (lookupProp_eq_none hk.1),
        getProp_obj_of_none (lookupProp_eq_none hk.2)] at hne
      exact hne rfl
    · rw [hfilter k _ (compareStates_obj d l)]
      simp [findingFor, hne]
  · intro k he
    rw [hfilter k _ (compareStates_obj d l)]
    simp [findingFor, he]
  · intro f hf
    obtain ⟨-, -, h3, h4, -, dKeys, lKeys, hdk, hlk, hmem⟩ :=
      mem_report _ _ _ (compareStates_obj d l) f hf
    cases hdk
    cases hlk
    exact ⟨hmem, h3, h4⟩
  · intro k hk
    exact ⟨fun v hv => getProp_obj_of_some hv, fun h => getProp_obj_of_not_mem hk h,
      fun v hv => getProp_obj_of_some hv, fun h => getProp_obj_of_not_mem hk h⟩

/-! ## Order of the report -/

theorem foldl_setAdd_eq (ys acc : List String) (hy : ys.Nodup) :
    ys.foldl setAdd acc = acc ++ ys.filter (fun k => decide (k ∉ acc)) := by
  induction ys generalizing acc with
  | nil => simp
  | cons y rest ih =>
    obtain ⟨hyr, hrest⟩ := List.nodup_cons.mp hy
    rw [List.foldl_cons, ih _ hrest]
    unfold setAdd
    by_cases hm : y ∈ acc
    · simp [hm]
    · have hfil : rest.filter (fun k => decide (k ∉ acc ++ [y]))
          = rest.filter (fun k => decide (k ∉ acc)) := by
        apply List.filter_congr
        intro k hk
        have hky : k ≠ y := fun e => hyr (e ▸ hk)
        simp [hky]
      simp only [if_neg hm]
      rw [hfil, List.filter_cons_of_pos (by simpa using hm), List.append_assoc]
      rfl

theorem newSet_append (xs ys : List String) (hx : xs.Nodup) (hy : ys.Nodup) :
    newSet (xs ++ ys) = xs ++ ys.filter (fun k => decide (k ∉ xs)) := by
  unfold newSet
  rw [List.foldl_append, foldl_setAdd_eq xs [] hx, foldl_setAdd_eq ys _ hy]
  simp

theorem map_key_filterMap (g : String → Option Finding)
    (hg : ∀ k f, g k = some f → f.key = k) (ks : List String) :
    (ks.filterMap g).map Finding.key = ks.filter (fun k => (g k).isSome) := by
  induction ks with
  | nil => rfl
  | cons k rest ih =>
    cases hgk : g k with
    | none => rw [List.filterMap_cons_none hgk, List.filter_cons_of_neg (by simp [hgk]), ih]
    | some f =>
      rw [List.filterMap_cons_some hgk, List.filter_cons_of_pos (by simp [hgk]), List.map_cons,
        ih, hg k f hgk]

/-- C12, as stated, fails: the report of two mappings whose keys were inserted as
`b`, `a` lists `b` before `a`, and it changes with the insertion order. -/
theorem report_order_counterexample :
    "a" < "b" ∧
    (∃ r, compareStates (.obj [("b", .str "1"), ("a", .str "1")])
        (.obj [("b", .str "2"), ("a", .str "2")]) = .ok r ∧
      r.map Finding.key = ["b", "a"]) ∧
    (∃ r, compareStates (.obj [("a", .str "1"), ("b", .str "1")])
        (.obj [("b", .str "2"), ("a", .str "2")]) = .ok r ∧
      r.map Finding.key = ["a", "b"]) :=
  ⟨String.lt_iff_toList_lt.mpr (by decide), ⟨_, by rfl, by rfl⟩, ⟨_, by rfl, by rfl⟩⟩

/-- C12, amended: the findings follow the insertion order of the key set: first
the keys of the declared mapping in its own order, then the keys that only the live
mapping has in its own order, each key kept when `JSON.stringify` writes the two
values read at it differently. -/
theorem report_in_insertion_order (d l : List (String × JSValue))
    (nd : (d.map Prod.fst).Nodup) (nl : (l.map Prod.fst).Nodup) :
    ∃ r, compareStates (.obj d) (.obj l) = .ok r ∧
      r.map Finding.key
        = (d.map Prod.fst ++ (l.map Prod.fst).filter (fun k => decide (k ∉ d.map Prod.fst))).filter
            (fun k => decide
              (JSON.stringify (getProp (.obj d) k) ≠ JSON.stringify (getProp (.obj l) k))) := by
  refine ⟨_, compareStates_obj d l, ?_⟩
  rw [map_key_filterMap _ (fun a f h => (findingFor_some _ _ _ _ h).2.1),
    newSet_append _ _ nd nl]
  apply List.filter_congr
  intro k _
  unfold findingFor
  split <;> simp_all

/-- C12, amended, on states whose keys were inserted as `b`, `a` and as `c`, `b`. -/
theorem report_in_insertion_order_witness :
    ∃ r, compareStates (.obj [("b", .str "1"), ("a", .str "1")])
        (.obj [("c", .str "2"), ("b", .str "2")]) = .ok r ∧
      r.map Finding.key
        = (["b", "a"] ++ ["c", "b"].filter (fun k => decide (k ∉ ["b", "a"]))).filter
            (fun k => decide
              (JSON.stringify (getProp (.obj [("b", .str "1"), ("a", .str "1")]) k)
                ≠ JSON.stringify (getProp (.obj [("c", .str "2"), ("b", .str "2")]) k))) :=
  report_in_insertion_order [("b", .str "1"), ("a", .str "1")]
    [("c", .str "2"), ("b", .str "2")] (by decide) (by decide)

/-! ## Roots that are not mappings -/

/-- C13, as stated, fails: with a null root `Object.keys` throws a TypeError, in
`compareStates` and so in `analyzeDrift`, whichever side the null is on. -/
theorem null_root_counterexample :
    compareStates .null (.obj []) = .error .typeError ∧
    compareStates (.obj []) .null = .error .typeError ∧
    InfraSealReconciler.analyzeDrift { declaredState := .null } (.obj []) = .error .typeError ∧
    InfraSealReconciler.analyzeDrift { declaredState := .obj [] } .null = .error .typeError :=
  ⟨by rfl, by rfl, by rfl, by rfl⟩

/-- C13, amended: `compareStates` and `analyzeDrift` return a result exactly when
neither root is null; every other pair of roots, mappings or not, is compared
without an error. -/
theorem returns_iff_roots_not_null (declaredState liveState : JSValue) :
    ((∃ r, compareStates declaredState liveState = .ok r) ↔
      (declaredState ≠ .null ∧ liveState ≠ .null)) ∧
    ((∃ a, InfraSealReconciler.analyzeDrift { declaredState := declaredState } liveState = .ok a) ↔
      (declaredState ≠ .null ∧ liveState ≠ .null)) := by
  have hcs : (∃ r, compareStates declaredState liveState = .ok r) ↔
      (declaredState ≠ .null ∧ liveState ≠ .null) := by
    constructor
    · rintro ⟨r, hr⟩
      obtain ⟨dKeys, lKeys, hd, hl, -⟩ := compareStates_ok_inv _ _ _ hr
      constructor
      · rintro rfl
        cases hd
      · rintro rfl
        cases hl
    · rintro ⟨hd, hl⟩
      exact compareStates_returns _ _ hd hl
  refine ⟨hcs, ?_⟩
  rw [← hcs]
  constructor
  · rintro ⟨a, ha⟩
    exact ⟨_, (analyzeDrift_ok_inv _ _ _ ha).1⟩
  · rintro ⟨r, hr⟩
    exact ⟨_, analyzeDrift_of_report { declaredState := declaredState } liveState r hr⟩

/-! ## Severities of findings -/

theorem classify_cases (key : String) :
    classify key = (5, "SECURITY_GROUP_CHANGE") ∨ classify key = (4, "DATABASE_VERSION_CHANGE") ∨
    classify key = (1, "GENERIC_CHANGE") := by
  cases h1 : includes key "securityGroup" with
  | true => exact Or.inl (classify_securityGroup key h1)
  | false =>
    cases h2 : includes key "dbVersion" with
    | true => exact Or.inr (Or.inl (classify_dbVersion key h2 h1))
    | false => exact Or.inr (Or.inr (classify_generic key h2 h1))

theorem one_le_classify (key : String) : 1 ≤ (classify key).1 := by
  rcases classify_cases key with h | h | h <;> rw [h] <;> norm_num

theorem totalSeverityOf_eq_sum (report : List Finding) :
    totalSeverityOf report = (report.map Finding.severity).sum := by
  unfold totalSeverityOf
  rw [foldl_severity_eq, zero_add]

theorem analyzeDrift_totalSeverity (self : InfraSealReconciler) (liveState : JSValue)
    (r : DriftAnalysis) (h : self.analyzeDrift liveState = .ok r) :
    r.totalSeverity = totalSeverityOf r.driftReport :=
  (analyzeDrift_ok_inv self liveState r h).2.1

/-- C14: adding a finding the comparator can produce to a list of findings, at any
place, never lowers the total severity. -/
theorem severity_monotone (declaredState liveState : JSValue) (r : List Finding)
    (h : compareStates declaredState liveState = .ok r) (f : Finding) (hf : f ∈ r)
    (pre post : List Finding) :
    totalSeverityOf (pre ++ post) ≤ totalSeverityOf (pre ++ f :: post) := by
  obtain ⟨-, hs, -⟩ := mem_report _ _ _ h f hf
  have hpos : 0 ≤ f.severity := by
    rw [hs]
    exact le_trans (by norm_num) (one_le_classify f.key)
  rw [totalSeverityOf_eq_sum, totalSeverityOf_eq_sum]
  simp only [List.map_append, List.map_cons, List.sum_append, List.sum_cons]
  linarith

/-- C14 on the `dbVersion` finding of the demonstration, added in front of a list
of one finding. -/
theorem severity_monotone_witness :
    totalSeverityOf ([] ++ [envFinding]) ≤ totalSeverityOf ([] ++ demoDbFinding :: [envFinding]) :=
  severity_monotone iaC liveStateWithDrift demoReport demo_compareStates demoDbFinding
    (List.mem_cons_self _ _) [] [envFinding]

/-! ## Empty states -/

/-- C15: for two empty mappings `analyzeDrift` returns no findings, total severity
0 and the stable recommendation. -/
theorem empty_states_stable :
    InfraSealReconciler.analyzeDrift { declaredState := .obj [] } (.obj [])
      = .ok { totalSeverity := 0, recommendation := STABLE, driftReport := [] } := by
  rw [analyzeDrift_of_report { declaredState := .obj [] } (.obj []) [] (by rfl)]
  have h5 : ¬ ((0 : ℚ) > 5) := by norm_num
  have h1 : ¬ ((0 : ℚ) > 1) := by norm_num
  simp [recommend, h5, h1]

/-! ## Effects of a call -/

theorem foldlM_compare_eq (declaredState liveState : StateRef) (keys : List String)
    (init : List Finding) (w : World) :
    (keys.foldlM
        (fun report key => do
          let dVal ← readPropM declaredState key
          let lVal ← readPropM liveState key
          pure (compareStates.compare report key dVal lVal))
        init : Program (List Finding)) w
      = (.ok (keys.foldl
          (fun report key =>
            compareStates.compare report key (getProp (w.deref declaredState) key)
              (getProp (w.deref liveState) key))
          init), w) := by
  induction keys generalizing init with
  | nil => rfl
  | cons k rest ih =>
    rw [List.foldlM_cons, List.foldl_cons]
    show Program.bind _ _ w = _
    unfold Program.bind
    have hstep : (do
          let dVal ← readPropM declaredState k
          let lVal ← readPropM liveState k
          pure (compareStates.compare init k dVal lVal) : Program (List Finding)) w
        = (.ok (compareStates.compare init k (getProp (w.deref declaredState) k)
            (getProp (w.deref liveState) k)), w) := rfl
    rw [hstep]
    exact ih _

theorem compareStatesM_eq (declaredState liveState : StateRef) (w : World) :
    compareStatesM declaredState liveState w
      = (compareStates (w.deref declaredState) (w.deref liveState), w) := by
  unfold compareStatesM compareStates
  show Program.bind _ _ w = _
  unfold Program.bind objectKeysM
  cases hd : Object.keys (w.deref declaredState) with
  | error e => rfl
  | ok dKeys =>
    show Program.bind _ _ w = _
    unfold Program.bind
    cases hl : Object.keys (w.deref liveState) with
    | error e => simp only [hl]
    | ok lKeys =>
      simp only [hl]
      exact foldlM_compare_eq declaredState liveState _ [] w

theorem analyzeDriftM_eq (w : World) :
    analyzeDriftM w
      = match InfraSealReconciler.analyzeDrift { declaredState := w.declaredState } w.liveState with
        | .error e => (.error e, w)
        | .ok a => (.ok a, { w with console := w.console ++ consoleLines a }) := by
  unfold analyzeDriftM InfraSealReconciler.analyzeDrift
  show Program.bind _ _ w = _
  unfold Program.bind
  rw [compareStatesM_eq]
  cases hc : compareStates (w.deref .declared) (w.deref .live) with
  | error e =>
    have hc' : compareStates w.declaredState w.liveState = .error e := hc
    simp only [hc']
  | ok report =>
    have hc' : compareStates w.declaredState w.liveState = .ok report := hc
    simp only [hc']
    show (_, _) = (_, _)
    simp [consoleLines, List.append_assoc]

/-- C16: a call of `analyzeDrift` leaves the object `this.declaredState` refers to
and the live state it was given as they were, whether it returns or throws, and
returns what the pure reading of the code computes; so a second call on the same
reconciler with another live state returns what that call returns on a fresh
reconciler built from the same declared state.  Only the console changes. -/
theorem analyzeDrift_leaves_state (declaredState liveState₁ liveState₂ : JSValue)
    (console : List String) :
    (analyzeDriftM { declaredState := declaredState, liveState := liveState₁,
                     console := console }).2.declaredState = declaredState ∧
    (analyzeDriftM { declaredState := declaredState, liveState := liveState₁,
                     console := console }).2.liveState = liveState₁ ∧
    (analyzeDriftM { declaredState := declaredState, liveState := liveState₁,
                     console := console }).1
      = InfraSealReconciler.analyzeDrift { declaredState := declaredState } liveState₁ ∧
    (analyzeDriftM
        { (analyzeDriftM { declaredState := declaredState, liveState := liveState₁,
                           console := console }).2 with liveState := liveState₂ }).1
      = (analyzeDriftM { declaredState := declaredState, liveState := liveState₂,
                         console := [] }).1 := by
  have hfst : ∀ w : World, (analyzeDriftM w).1
      = InfraSealReconciler.analyzeDrift { declaredState := w.declaredState } w.liveState := by
    intro w
    rw [analyzeDriftM_eq]
    split <;> simp_all
  have hd : ∀ w : World, (analyzeDriftM w).2.declaredState = w.declaredState := by
    intro w
    rw [analyzeDriftM_eq]
    split <;> rfl
  have hl : ∀ w : World, (analyzeDriftM w).2.liveState = w.liveState := by
    intro w
    rw [analyzeDriftM_eq]
    split <;> rfl
  refine ⟨hd _, hl _, hfst _, ?_⟩
  rw [hfst, hfst]
  simp only [hd]

/-! ## The rule set -/

/-- C17, as stated, fails: a divergence on an `instanceType` field has severity 1,
and no reconciler gives it severity 3, a reconciler holding nothing but a declared
state. -/
theorem custom_rule_counterexample :
    (∃ r f, InfraSealReconciler.analyzeDrift { declaredState := .obj [("instanceType", .str "t2.micro")] }
        (.obj [("instanceType", .str "t3.large")]) = .ok r ∧
      f ∈ r.driftReport ∧ f.key = "instanceType" ∧ f.change = "GENERIC_CHANGE" ∧
      f.severity = 1) ∧
    ¬ ∃ (self : InfraSealReconciler) (r : DriftAnalysis),
        self.analyzeDrift (.obj [("instanceType", .str "t3.large")]) = .ok r ∧
        ∃ f ∈ r.driftReport, f.key = "instanceType" ∧ f.severity = 3 := by
  constructor
  · exact ⟨_, instanceTypeFinding,
      analyzeDrift_of_report _ _ [instanceTypeFinding] (by rfl), List.mem_singleton.mpr rfl,
      rfl, rfl, rfl⟩
  · rintro ⟨self, r, hr, f, hf, hkey, hsev⟩
    obtain ⟨hc, -, -⟩ := analyzeDrift_ok_inv _ _ _ hr
    obtain ⟨-, hs, -⟩ := mem_report _ _ _ hc f hf
    rw [hs, hkey, classify_generic "instanceType" (by decide) (by decide)] at hsev
    norm_num at hsev

/-- C17, amended: the rule set is fixed and is no parameter of the reconciler.
Whatever reconcilers and live states are used, two findings at the same key have
the same category and severity, and a divergence on a field whose key contains
none of `securityGroup`, `dbVersion`, `tags` and `tag`, an `instanceType` field
included, is a GENERIC_CHANGE of severity 1. -/
theorem rule_set_fixed (self₁ self₂ : InfraSealReconciler) (liveState₁ liveState₂ : JSValue)
    (r₁ r₂ : DriftAnalysis)
    (h₁ : self₁.analyzeDrift liveState₁ = .ok r₁) (h₂ : self₂.analyzeDrift liveState₂ = .ok r₂)
    (f₁ f₂ : Finding) (hf₁ : f₁ ∈ r₁.driftReport) (hf₂ : f₂ ∈ r₂.driftReport) :
    (f₁.key = f₂.key → f₁.change = f₂.change ∧ f₁.severity = f₂.severity) ∧
    (includes f₁.key "securityGroup" = false → includes f₁.key "dbVersion" = false →
      includes f₁.key "tags" = false → includes f₁.key "tag" = false →
      f₁.change = "GENERIC_CHANGE" ∧ f₁.severity = 1) ∧
    (f₁.key = "instanceType" → f₁.change = "GENERIC_CHANGE" ∧ f₁.severity = 1) := by
  obtain ⟨hc₁, -, -⟩ := analyzeDrift_ok_inv _ _ _ h₁
  obtain ⟨hc₂, -, -⟩ := analyzeDrift_ok_inv _ _ _ h₂
  obtain ⟨a1, a2, -⟩ := mem_report _ _ _ hc₁ f₁ hf₁
  obtain ⟨b1, b2, -⟩ := mem_report _ _ _ hc₂ f₂ hf₂
  refine ⟨?_, ?_, ?_⟩
  · intro hkey
    rw [a1, a2, b1, b2, hkey]
    exact ⟨rfl, rfl⟩
  · intro hs hd _ _
    rw [a1, a2, classify_generic _ hd hs]
    exact ⟨rfl, rfl⟩
  · intro hkey
    rw [a1, a2, hkey, classify_generic "instanceType" (by decide) (by decide)]
    exact ⟨rfl, rfl⟩

/-- C17, amended, on the `instanceType` finding of two reconcilers that hold
different declared states. -/
theorem rule_set_fixed_witness :
    (instanceTypeFinding.key = instanceTypeFinding.key →
      instanceTypeFinding.change = instanceTypeFinding.change ∧
      instanceTypeFinding.severity = instanceTypeFinding.severity) ∧
    (includes instanceTypeFinding.key "securityGroup" = false →
      includes instanceTypeFinding.key "dbVersion" = false →
      includes instanceTypeFinding.key "tags" = false →
      includes instanceTypeFinding.key "tag" = false →
      instanceTypeFinding.change = "GENERIC_CHANGE" ∧ instanceTypeFinding.severity = 1) ∧
    (instanceTypeFinding.key = "instanceType" →
      instanceTypeFinding.change = "GENERIC_CHANGE" ∧ instanceTypeFinding.severity = 1) :=
  rule_set_fixed
    { declaredState := .obj [("instanceType", .str "t2.micro")] }
    { declaredState := .obj [("instanceType", .str "t2.micro"), ("env", .str "production")] }
    (.obj [("instanceType", .str "t3.large")])
    (.obj [("instanceType", .str "t3.large"), ("env", .str "production")])
    _ _
    (analyzeDrift_of_report _ _ [instanceTypeFinding] (by rfl))
    (analyzeDrift_of_report _ _ [instanceTypeFinding] (by rfl))
    instanceTypeFinding instanceTypeFinding
    (List.mem_singleton.mpr rfl) (List.mem_singleton.mpr rfl)

/-! ## Exchanging the two states -/

theorem swapSides_findingFor (k : String) (x y : PropValue) :
    (findingFor k x y).map swapSides = findingFor k y x := by
  unfold findingFor
  by_cases h : JSON.stringify x = JSON.stringify y
  · simp [h]
  · have h' : ¬ JSON.stringify y = JSON.stringify x := fun e => h e.symm
    simp [h, h', swapSides]

theorem severity_swapSides (report : List Finding) :
    (report.map swapSides).map Finding.severity = report.map Finding.severity := by
  rw [List.map_map]
  rfl

theorem recommend_eq_stable_iff (s : ℚ) : recommend s = STABLE ↔ s ≤ 1 := by
  obtain ⟨-, h2, h3⟩ := recommendations_distinct
  unfold recommend
  by_cases a : s > 5
  · simp [a, h2]; linarith
  · by_cases b : s > 1
    · simp [a, b, h3]
    · simp [a, b]; exact le_of_not_lt b

/-- C19: exchanging the declared and the live mapping gives the same total
severity and the same recommendation, and the report of the exchanged call, with
the declared and live values of its findings exchanged back, is a permutation of
the report of the original call. -/
theorem drift_symmetric (d l : List (String × JSValue)) :
    ∃ a b, InfraSealReconciler.analyzeDrift { declaredState := .obj d } (.obj l) = .ok a ∧
      InfraSealReconciler.analyzeDrift { declaredState := .obj l } (.obj d) = .ok b ∧
      a.totalSeverity = b.totalSeverity ∧ a.recommendation = b.recommendation ∧
      (b.driftReport.map swapSides).Perm a.driftReport := by
  have hperm : (((newSet (l.map Prod.fst ++ d.map Prod.fst)).filterMap
        (fun k => findingFor k (getProp (.obj l) k) (getProp (.obj d) k))).map swapSides).Perm
      ((newSet (d.map Prod.fst ++ l.map Prod.fst)).filterMap
        (fun k => findingFor k (getProp (.obj d) k) (getProp (.obj l) k))) := by
    rw [List.map_filterMap]
    have hfun : (fun k => Option.map swapSides (findingFor k (getProp (.obj l) k) (getProp (.obj d) k)))
        = (fun k => findingFor k (getProp (.obj d) k) (getProp (.obj l) k)) := by
      funext k
      exact swapSides_findingFor k _ _
    rw [hfun]
    apply List.Perm.filterMap
    apply newSet_perm
    intro k
    simp only [List.mem_append]
    exact Or.comm
  have hsum : totalSeverityOf ((newSet (d.map Prod.fst ++ l.map Prod.fst)).filterMap
        (fun k => findingFor k (getProp (.obj d) k) (getProp (.obj l) k)))
      = totalSeverityOf ((newSet (l.map Prod.fst ++ d.map Prod.fst)).filterMap
        (fun k => findingFor k (getProp (.obj l) k) (getProp (.obj d) k))) := by
    rw [totalSeverityOf_eq_sum, totalSeverityOf_eq_sum]
    have hs := (hperm.map Finding.severity).sum_eq
    rw [severity_swapSides] at hs
    exact hs.symm
  refine ⟨_, _, analyzeDrift_of_report _ _ _ (compareStates_obj d l),
    analyzeDrift_of_report _ _ _ (compareStates_obj l d), hsum, ?_, hperm⟩
  exact congrArg recommend hsum

/-! ## When the recommendation is the stable one -/

theorem length_le_sum_severity (report : List Finding)
    (h : ∀ f ∈ report, 1 ≤ f.severity) :
    (report.length : ℚ) ≤ (report.map Finding.severity).sum := by
  induction report with
  | nil => simp
  | cons f rest ih =>
    have h1 := h f (List.mem_cons_self _ _)
    have h2 := ih (fun g hg => h g (List.mem_cons_of_mem _ hg))
    simp only [List.length_cons, List.map_cons, List.sum_cons, Nat.cast_add, Nat.cast_one]
    linarith

theorem generic_iff_severity_one (key : String) :
    (classify key).2 = "GENERIC_CHANGE" ↔ (classify key).1 = 1 := by
  rcases classify_cases key with h | h | h <;> rw [h]
  · constructor
    · intro e; exact absurd e (by decide)
    · intro e; norm_num at e
  · constructor
    · intro e; exact absurd e (by decide)
    · intro e; norm_num at e
  · exact ⟨fun _ => rfl, fun _ => rfl⟩

/-- C20: `analyzeDrift` returns the stable recommendation exactly when the report
is empty or is a single GENERIC_CHANGE finding; the total severity is 0 exactly
when the report is empty; a report of two or more findings, or one that holds a
SECURITY_GROUP_CHANGE or DATABASE_VERSION_CHANGE finding, never gets the stable
recommendation. -/
theorem stable_iff_at_most_one_generic (self : InfraSealReconciler) (liveState : JSValue)
    (r : DriftAnalysis) (h : self.analyzeDrift liveState = .ok r) :
    (r.recommendation = STABLE ↔
      (r.driftReport = [] ∨ ∃ f, r.driftReport = [f] ∧ f.change = "GENERIC_CHANGE")) ∧
    (r.totalSeverity = 0 ↔ r.driftReport = []) ∧
    (2 ≤ r.driftReport.length → r.recommendation ≠ STABLE) ∧
    ((∃ f ∈ r.driftReport, f.change = "SECURITY_GROUP_CHANGE" ∨
        f.change = "DATABASE_VERSION_CHANGE") → r.recommendation ≠ STABLE) := by
  obtain ⟨hc, ht, hrec⟩ := analyzeDrift_ok_inv _ _ _ h
  have hmem : ∀ f ∈ r.driftReport,
      f.change = (classify f.key).2 ∧ f.severity = (classify f.key).1 := fun f hf =>
    ⟨(mem_report _ _ _ hc f hf).1, (mem_report _ _ _ hc f hf).2.1⟩
  have hone : ∀ f ∈ r.driftReport, 1 ≤ f.severity := fun f hf => by
    rw [(hmem f hf).2]
    exact one_le_classify f.key
  have hgen : ∀ f ∈ r.driftReport, (f.change = "GENERIC_CHANGE" ↔ f.severity = 1) :=
    fun f hf => by
      rw [(hmem f hf).1, (hmem f hf).2]
      exact generic_iff_severity_one f.key
  have hsum : r.totalSeverity = (r.driftReport.map Finding.severity).sum := by
    rw [ht, foldl_severity_eq, zero_add]
  have hlen := length_le_sum_severity r.driftReport hone
  rw [← hsum] at hlen
  have hstable : r.recommendation = STABLE ↔ r.totalSeverity ≤ 1 := by
    rw [hrec]
    exact recommend_eq_stable_iff _
  have hmain : r.recommendation = STABLE ↔
      (r.driftReport = [] ∨ ∃ f, r.driftReport = [f] ∧ f.change = "GENERIC_CHANGE") := by
    rw [hstable]
    cases hrep : r.driftReport with
    | nil =>
      rw [hrep] at hsum
      simp only [List.map_nil, List.sum_nil] at hsum
      rw [hsum]
      simp
    | cons f rest =>
      cases rest with
      | nil =>
        rw [hrep] at hsum hgen hone
        simp only [List.map_cons, List.map_nil, List.sum_cons, List.sum_nil, add_zero] at hsum
        have hg := hgen f (List.mem_singleton.mpr rfl)
        have h1 := hone f (List.mem_singleton.mpr rfl)
        rw [hsum]
        constructor
        · intro hle
          exact Or.inr ⟨f, rfl, hg.mpr (le_antisymm hle h1)⟩
        · rintro (hnil | ⟨g, hg1, hg2⟩)
          · cases hnil
          · cases hg1
            exact le_of_eq (hg.mp hg2)
      | cons g rest' =>
        rw [hrep] at hlen
        simp only [List.length_cons, Nat.cast_add, Nat.cast_one] at hlen
        have hnn : (0 : ℚ) ≤ (rest'.length : ℚ) := Nat.cast_nonneg _
        constructor
        · intro hle
          linarith
        · rintro (hnil | ⟨k, hk1, -⟩)
          · cases hnil
          · cases hk1
  refine ⟨hmain, ?_, ?_, ?_⟩
  · constructor
    · intro h0
      cases hrep : r.driftReport with
      | nil => rfl
      | cons f rest =>
        rw [hrep] at hlen
        simp only [List.length_cons, Nat.cast_add, Nat.cast_one] at hlen
        have hnn : (0 : ℚ) ≤ (rest.length : ℚ) := Nat.cast_nonneg _
        linarith
    · intro hnil
      rw [hsum, hnil]
      rfl
  · intro h2 hst
    rw [hstable] at hst
    have : (2 : ℚ) ≤ (r.driftReport.length : ℚ) := by exact_mod_cast h2
    linarith
  · rintro ⟨f, hf, hch⟩ hst
    rcases hmain.mp hst with hnil | ⟨g, hg1, hg2⟩
    · rw [hnil] at hf
      cases hf
    · rw [hg1] at hf
      rw [List.mem_singleton.mp hf] at hch
      rw [hg2] at hch
      rcases hch with e | e
      · exact absurd e (by decide)
      · exact absurd e (by decide)

/-- C20 on the demonstration, whose report of three findings is not stable. -/
theorem stable_iff_at_most_one_generic_witness :
    reconciler.analyzeDrift liveStateWithDrift = .ok demoAnalysis ∧
    2 ≤ demoAnalysis.driftReport.length ∧ demoAnalysis.recommendation ≠ STABLE :=
  ⟨demo_analyzeDrift, by decide,
   (stable_iff_at_most_one_generic reconciler liveStateWithDrift demoAnalysis
      demo_analyzeDrift).2.2.1 (by decide)⟩

end InfraSeal
